import Mathlib

/-!
Verification of the NewsFlow ingestion-to-digest pipeline.

The development shallowly embeds the pipeline code:
* `app/pipeline/streams.py` — the Redis-stream ingestion queue: field
  serialization/deserialization (`_serialize_article`, `_deserialize_article`),
  `add_article`, `read_articles` (consumer-group read with `">"`), and
  `acknowledge_article` (`XACK`);
* `app/pipeline/summarizer.py` — the deterministic fallback categorizer and
  summarizer (`_keyword_categorize_article`, `_categorize_by_source`,
  `_fallback_summary`, `_clean_summary`) and the error-handling structure of
  `categorize_and_summarize`;
* `app/scheduler/tasks.py` — stream processing (`process_article_stream`),
  digest assembly (`create_digest`, `_select_articles_for_digest`), the
  quiet-hour gates of `collect_news`/`create_digest`, and `cleanup_old_data`.

Python strings are Lean `String`s (operations are implemented on the
underlying `List Char`); Python `datetime` values are `PyDatetime` records
(wall-clock fields plus an optional UTC-offset in minutes, `none` = naive);
Python floats are modelled as decimal literals `PyFloat` (sign, magnitude,
number of fractional digits), which is exact for the values the pipeline
transports; heterogeneous dict values are `PyValue`.
-/

namespace NewsFlow

/-! ### Characters and digit strings -/

/-- The character for a decimal digit `n < 10` (models Python's `"%d"`). -/
def digitChar (n : Nat) : Char := Char.ofNat (48 + n)

/-- Numeric value of a decimal digit character. -/
def digitVal (c : Char) : Nat := c.toNat - 48

/-- Recogniser for ASCII decimal digits. -/
def isDigitC (c : Char) : Bool := 48 ≤ c.toNat && c.toNat ≤ 57

theorem isDigitC_digitChar {n : Nat} (h : n < 10) : isDigitC (digitChar n) = true := by
  interval_cases n <;> decide

theorem digitVal_digitChar {n : Nat} (h : n < 10) : digitVal (digitChar n) = n := by
  interval_cases n <;> decide

/-- Decimal digits of a natural number, most significant first
(models Python's `str` on a nonnegative integer). -/
def natToChars (n : Nat) : List Char :=
  if h : n < 10 then [digitChar n]
  else natToChars (n / 10) ++ [digitChar (n % 10)]
  decreasing_by exact Nat.div_lt_self (by omega) (by omega)

/-- Value of a digit string read most-significant-first. -/
def digitsVal (l : List Char) : Nat := l.foldl (fun a c => 10 * a + digitVal c) 0

theorem natToChars_ne_nil (n : Nat) : natToChars n ≠ [] := by
  rw [natToChars]
  split <;> simp

theorem natToChars_all_digits (n : Nat) : ∀ c ∈ natToChars n, isDigitC c = true := by
  induction n using Nat.strong_induction_on with
  | _ n ih =>
    rw [natToChars]
    split
    · next h =>
      intro c hc
      simp only [List.mem_singleton] at hc
      subst hc
      exact isDigitC_digitChar h
    · next h =>
      intro c hc
      simp only [List.mem_append, List.mem_singleton] at hc
      rcases hc with hc | hc
      · exact ih (n / 10) (Nat.div_lt_self (by omega) (by omega)) c hc
      · subst hc; exact isDigitC_digitChar (Nat.mod_lt _ (by omega))

theorem digitsVal_append_singleton (l : List Char) (c : Char) :
    digitsVal (l ++ [c]) = 10 * digitsVal l + digitVal c := by
  simp [digitsVal, List.foldl_append]

theorem digitsVal_natToChars (n : Nat) : digitsVal (natToChars n) = n := by
  induction n using Nat.strong_induction_on with
  | _ n ih =>
    rw [natToChars]
    split
    · next h => simp [digitsVal, digitVal_digitChar h]
    · next h =>
      rw [digitsVal_append_singleton, ih (n / 10) (Nat.div_lt_self (by omega) (by omega)),
        digitVal_digitChar (Nat.mod_lt _ (by omega))]
      omega

/-- Length bound: a number below `10 ^ k` prints in at most `k` digits (for `k ≥ 1`). -/
theorem natToChars_length_le {k n : Nat} (hk : 1 ≤ k) (h : n < 10 ^ k) :
    (natToChars n).length ≤ k := by
  induction k generalizing n with
  | zero => omega
  | succ k ihk =>
    rw [natToChars]
    split
    · simp only [List.length_singleton]
      omega
    · next hn =>
      have hk1 : 1 ≤ k := by
        rcases Nat.eq_zero_or_pos k with hz | hp
        · subst hz; simp at h; omega
        · exact hp
      have hdiv : n / 10 < 10 ^ k := by
        rw [Nat.div_lt_iff_lt_mul (by omega)]
        calc n < 10 ^ (k + 1) := h
        _ = 10 ^ k * 10 := by ring
      have := ihk hk1 hdiv
      simp only [List.length_append, List.length_singleton]
      omega

/-- Left-pad a digit string with `'0'` to a given width (models `"%0Nd"`). -/
def padZeros (width : Nat) (l : List Char) : List Char :=
  List.replicate (width - l.length) '0' ++ l

theorem digitsVal_replicate_zero_append (j : Nat) (l : List Char) :
    digitsVal (List.replicate j '0' ++ l) = digitsVal l := by
  induction j with
  | zero => simp
  | succ j ih =>
    have : List.replicate (j + 1) '0' ++ l = '0' :: (List.replicate j '0' ++ l) := by
      simp [List.replicate_succ]
    rw [this]
    simpa [digitsVal, digitVal] using ih

theorem padZeros_length {k : Nat} {l : List Char} (h : l.length ≤ k) :
    (padZeros k l).length = k := by
  simp [padZeros]
  omega

theorem padZeros_all_digits {k : Nat} {l : List Char} (h : ∀ c ∈ l, isDigitC c = true) :
    ∀ c ∈ padZeros k l, isDigitC c = true := by
  intro c hc
  simp only [padZeros, List.mem_append, List.mem_replicate] at hc
  rcases hc with ⟨_, hc⟩ | hc
  · subst hc; decide
  · exact h c hc

theorem digitsVal_padZeros (k : Nat) (l : List Char) :
    digitsVal (padZeros k l) = digitsVal l :=
  digitsVal_replicate_zero_append _ _

/-- Exactly two digits (models `"%02d"`; callers pass values below 100). -/
def pad2 (n : Nat) : List Char := [digitChar (n / 10), digitChar (n % 10)]

/-- Exactly four digits (models `"%04d"`; callers pass values below 10000). -/
def pad4 (n : Nat) : List Char :=
  [digitChar (n / 1000), digitChar (n / 100 % 10), digitChar (n / 10 % 10), digitChar (n % 10)]

/-- Exactly six digits (models `"%06d"`; callers pass values below 1000000). -/
def pad6 (n : Nat) : List Char :=
  [digitChar (n / 100000), digitChar (n / 10000 % 10), digitChar (n / 1000 % 10),
   digitChar (n / 100 % 10), digitChar (n / 10 % 10), digitChar (n % 10)]

/-- ASCII lower-casing, as Python's `str.lower` acts on ASCII text. -/
def lowerStr (s : String) : String := ⟨s.data.map Char.toLower⟩

/-- Python whitespace for `str.strip`. -/
def pyIsSpace (c : Char) : Bool :=
  c = ' ' || c = '\t' || c = '\n' || c = '\x0d' || c = '\x0b' || c = '\x0c'

/-- Python `str.strip()`: drop whitespace from both ends. -/
def stripStr (s : String) : String :=
  ⟨(s.data.dropWhile pyIsSpace).reverse.dropWhile pyIsSpace |>.reverse⟩

/-- Take the first `n` characters (Python slicing `s[:n]`). -/
def takeStr (n : Nat) (s : String) : String := ⟨s.data.take n⟩

/-- Scanner for the non-overlapping occurrence count.  The fuel argument
(initially the haystack length, consumed one unit per examined position) makes
the left-to-right scan structurally recursive; a match skips the whole
pattern, so the fuel never runs out before the haystack does. -/
def countOccGo (pat : List Char) : Nat → List Char → Nat
  | _, [] => 0
  | 0, _ :: _ => 0
  | fuel + 1, c :: rest =>
    if pat.isPrefixOf (c :: rest) ∧ pat ≠ [] then
      1 + countOccGo pat fuel ((c :: rest).drop pat.length)
    else countOccGo pat fuel rest

/-- Non-overlapping occurrence count of a pattern, scanning left to right
(Python `str.count`; the pattern is nonempty wherever the code calls it, so the
empty-pattern guard inside the scanner is never exercised). -/
def countOcc (pat hay : List Char) : Nat := countOccGo pat hay.length hay

/-- Python `str.count` on strings. -/
def strCount (pat s : String) : Nat := countOcc pat.data s.data

/-- Contiguous-sublist test, used for Python substring membership `pat in s`. -/
def isSubL (pat : List Char) : List Char → Bool
  | [] => pat.isEmpty
  | c :: rest => pat.isPrefixOf (c :: rest) || isSubL pat rest

/-- Python substring membership `pat in s`. -/
def strContains (pat s : String) : Bool := isSubL pat.data s.data

/-- Splitter for Python `str.split(sep)`, fuel-structured like `countOccGo`. -/
def splitOnGo (sep : List Char) : Nat → List Char → List (List Char)
  | _, [] => [[]]
  | 0, l => [l]
  | fuel + 1, c :: rest =>
    if sep.isPrefixOf (c :: rest) ∧ sep ≠ [] then
      [] :: splitOnGo sep fuel ((c :: rest).drop sep.length)
    else match splitOnGo sep fuel rest with
      | [] => [[c]]
      | piece :: pieces => (c :: piece) :: pieces

/-- Python `str.split(sep)` for a nonempty separator, non-overlapping, left to
right. -/
def splitOnL (sep l : List Char) : List (List Char) := splitOnGo sep l.length l

/-- Python `str.split(sep)` on strings. -/
def splitStr (sep s : String) : List String := (splitOnL sep.data s.data).map String.mk

/-! ### Python `datetime` values

A `PyDatetime` is the wall-clock reading plus an optional fixed UTC offset in
minutes (`tzOffset = none` models a naive datetime, `some off` an aware one,
matching `tzinfo` being absent or a fixed `timezone`). -/

structure PyDatetime where
  year : Nat
  month : Nat
  day : Nat
  hour : Nat
  minute : Nat
  second : Nat
  microsecond : Nat
  tzOffset : Option Int
deriving DecidableEq, Repr

/-- Field ranges enforced by the `datetime` constructor (days simplified to 31;
offsets strictly inside ±24 h, as `datetime.timezone` requires). -/
def PyDatetime.validB (d : PyDatetime) : Bool :=
  1 ≤ d.year && d.year ≤ 9999 && 1 ≤ d.month && d.month ≤ 12 && 1 ≤ d.day && d.day ≤ 31 &&
  d.hour ≤ 23 && d.minute ≤ 59 && d.second ≤ 59 && d.microsecond ≤ 999999 &&
  (match d.tzOffset with
   | none => true
   | some off => off.natAbs ≤ 1439 && off.natAbs % 60 ≤ 59)

/-- The `±HH:MM` offset suffix that `datetime.isoformat` appends to an aware value. -/
def tzSuffix (off : Int) : List Char :=
  (if off < 0 then ['-'] else ['+']) ++ pad2 (off.natAbs / 60) ++ ':' :: pad2 (off.natAbs % 60)

/-- Model of `datetime.isoformat`: `YYYY-MM-DDTHH:MM:SS[.ffffff][±HH:MM]`
(the fractional part appears only when the microsecond field is nonzero). -/
def isoChars (d : PyDatetime) : List Char :=
  pad4 d.year ++ '-' :: pad2 d.month ++ '-' :: pad2 d.day ++
  'T' :: pad2 d.hour ++ ':' :: pad2 d.minute ++ ':' :: pad2 d.second ++
  (if d.microsecond ≠ 0 then '.' :: pad6 d.microsecond else []) ++
  (match d.tzOffset with
   | none => []
   | some off => tzSuffix off)

/-- `datetime.isoformat` as a string. -/
def isoformat (d : PyDatetime) : String := ⟨isoChars d⟩

/-- Parse exactly two leading decimal digits. -/
def parseDigits2 : List Char → Option (Nat × List Char)
  | a :: b :: rest =>
    if isDigitC a && isDigitC b then some (digitsVal [a, b], rest) else none
  | _ => none

/-- Parse exactly four leading decimal digits. -/
def parseDigits4 : List Char → Option (Nat × List Char)
  | a :: b :: c :: d :: rest =>
    if isDigitC a && isDigitC b && isDigitC c && isDigitC d then
      some (digitsVal [a, b, c, d], rest)
    else none
  | _ => none

/-- Parse exactly six leading decimal digits. -/
def parseDigits6 : List Char → Option (Nat × List Char)
  | a :: b :: c :: d :: e :: f :: rest =>
    if isDigitC a && isDigitC b && isDigitC c && isDigitC d && isDigitC e && isDigitC f then
      some (digitsVal [a, b, c, d, e, f], rest)
    else none
  | _ => none

/-- Consume one expected character. -/
def expectC (c : Char) : List Char → Option (List Char)
  | x :: rest => if x = c then some rest else none
  | _ => none

/-- Parse the optional `.ffffff` fraction: six digits or nothing
(the six-digit form is what `isoformat` emits; other widths are rejected). -/
def parseFrac (l : List Char) : Option (Nat × List Char) :=
  match l with
  | '.' :: r => parseDigits6 r
  | _ => some (0, l)

/-- Parse the optional `±HH:MM` offset suffix (the whole remaining input). -/
def parseTz (l : List Char) : Option (Option Int) :=
  match l with
  | [] => some none
  | sgn :: r =>
    if sgn = '+' || sgn = '-' then
      match parseDigits2 r with
      | none => none
      | some (oh, r2) =>
        match expectC ':' r2 with
        | none => none
        | some r3 =>
          match parseDigits2 r3 with
          | none => none
          | some (om, r4) =>
            if r4 = [] && oh ≤ 23 && om ≤ 59 then
              let mins : Int := oh * 60 + om
              some (some (if sgn = '-' then -mins else mins))
            else none
    else none

/-- Model of `datetime.fromisoformat` on the shapes `isoformat` can emit:
`YYYY-MM-DD[THH:MM:SS[.ffffff][±HH:MM]]`.  Returns `none` where Python raises
`ValueError` (non-digits, out-of-range fields, malformed shape). -/
def fromisoChars (l : List Char) : Option PyDatetime :=
  match parseDigits4 l with
  | none => none
  | some (y, r1) =>
    match expectC '-' r1 with
    | none => none
    | some r2 =>
      match parseDigits2 r2 with
      | none => none
      | some (mo, r3) =>
        match expectC '-' r3 with
        | none => none
        | some r4 =>
          match parseDigits2 r4 with
          | none => none
          | some (dd, r5) =>
            if hdate : 1 ≤ y ∧ 1 ≤ mo ∧ mo ≤ 12 ∧ 1 ≤ dd ∧ dd ≤ 31 then
              match r5 with
              | [] => some ⟨y, mo, dd, 0, 0, 0, 0, none⟩
              | _ :: _ =>
                match expectC 'T' r5 with
                | none => none
                | some r6 =>
                  match parseDigits2 r6 with
                  | none => none
                  | some (hh, r7) =>
                    match expectC ':' r7 with
                    | none => none
                    | some r8 =>
                      match parseDigits2 r8 with
                      | none => none
                      | some (mi, r9) =>
                        match expectC ':' r9 with
                        | none => none
                        | some r10 =>
                          match parseDigits2 r10 with
                          | none => none
                          | some (ss, r11) =>
                            if htime : hh ≤ 23 ∧ mi ≤ 59 ∧ ss ≤ 59 then
                              match parseFrac r11 with
                              | none => none
                              | some (us, r12) =>
                                match parseTz r12 with
                                | none => none
                                | some tz => some ⟨y, mo, dd, hh, mi, ss, us, tz⟩
                            else none
            else none

/-- `datetime.fromisoformat` on strings. -/
def fromiso (s : String) : Option PyDatetime := fromisoChars s.data

theorem parseDigits2_pad2 {n : Nat} (h : n ≤ 99) (rest : List Char) :
    parseDigits2 (pad2 n ++ rest) = some (n, rest) := by
  have h1 : n / 10 < 10 := by omega
  have h2 : n % 10 < 10 := by omega
  simp [pad2, parseDigits2, isDigitC_digitChar h1, isDigitC_digitChar h2, digitsVal,
    digitVal_digitChar h1, digitVal_digitChar h2]
  omega

theorem parseDigits4_pad4 {n : Nat} (h : n ≤ 9999) (rest : List Char) :
    parseDigits4 (pad4 n ++ rest) = some (n, rest) := by
  have h1 : n / 1000 < 10 := by omega
  have h2 : n / 100 % 10 < 10 := by omega
  have h3 : n / 10 % 10 < 10 := by omega
  have h4 : n % 10 < 10 := by omega
  simp [pad4, parseDigits4, isDigitC_digitChar h1, isDigitC_digitChar h2, isDigitC_digitChar h3,
    isDigitC_digitChar h4, digitsVal, digitVal_digitChar h1, digitVal_digitChar h2,
    digitVal_digitChar h3, digitVal_digitChar h4]
  omega

theorem parseDigits6_pad6 {n : Nat} (h : n ≤ 999999) (rest : List Char) :
    parseDigits6 (pad6 n ++ rest) = some (n, rest) := by
  have h1 : n / 100000 < 10 := by omega
  have h2 : n / 10000 % 10 < 10 := by omega
  have h3 : n / 1000 % 10 < 10 := by omega
  have h4 : n / 100 % 10 < 10 := by omega
  have h5 : n / 10 % 10 < 10 := by omega
  have h6 : n % 10 < 10 := by omega
  simp [pad6, parseDigits6, isDigitC_digitChar h1, isDigitC_digitChar h2, isDigitC_digitChar h3,
    isDigitC_digitChar h4, isDigitC_digitChar h5, isDigitC_digitChar h6, digitsVal,
    digitVal_digitChar h1, digitVal_digitChar h2, digitVal_digitChar h3, digitVal_digitChar h4,
    digitVal_digitChar h5, digitVal_digitChar h6]
  omega

theorem expectC_cons (c : Char) (rest : List Char) : expectC c (c :: rest) = some rest := by
  simp [expectC]

theorem parseDigits2_pad2_nil {n : Nat} (h : n ≤ 99) : parseDigits2 (pad2 n) = some (n, []) := by
  simpa using parseDigits2_pad2 h []

theorem parseTz_tzSuffix {off : Int} (h : off.natAbs ≤ 1439) :
    parseTz (tzSuffix off) = some (some off) := by
  have hoh : off.natAbs / 60 ≤ 23 := by omega
  have hom : off.natAbs % 60 ≤ 59 := by omega
  have e1 := parseDigits2_pad2 (n := off.natAbs / 60) (by omega) (':' :: pad2 (off.natAbs % 60))
  have e2 := parseDigits2_pad2_nil (n := off.natAbs % 60) (by omega)
  rcases lt_or_le off 0 with hneg | hpos
  · simp only [tzSuffix, if_pos hneg, List.cons_append, List.nil_append, parseTz,
      List.append_assoc, e1, expectC_cons, e2]
    rw [if_pos (by decide), if_pos (by simp [hoh, hom])]
    simp only [if_true, ite_true, Option.some.injEq]
    omega
  · simp only [tzSuffix, if_neg (by omega : ¬ off < 0), List.cons_append, List.nil_append,
      parseTz, List.append_assoc, e1, expectC_cons, e2]
    rw [if_pos (by decide), if_pos (by simp [hoh, hom])]
    rw [if_neg (by decide)]
    simp only [Option.some.injEq]
    omega

theorem parseFrac_no_dot {l : List Char} (h : ∀ r, l ≠ '.' :: r) : parseFrac l = some (0, l) := by
  unfold parseFrac
  cases l with
  | nil => rfl
  | cons c r =>
    have : c ≠ '.' := by
      intro hc
      exact h r (by rw [hc])
    simp [this]

/-- Key library contract behind `_serialize_article`/`_deserialize_article`:
`fromisoformat` inverts `isoformat` on every constructible datetime. -/
theorem fromiso_isoformat {d : PyDatetime} (h : d.validB = true) :
    fromiso (isoformat d) = some d := by
  obtain ⟨y, mo, dd, hh, mi, ss, us, tz⟩ := d
  simp only [PyDatetime.validB, Bool.and_eq_true, decide_eq_true_eq] at h
  obtain ⟨⟨⟨⟨⟨⟨⟨⟨⟨⟨hy1, hy2⟩, hmo1⟩, hmo2⟩, hd1⟩, hd2⟩, hhh⟩, hmi⟩, hss⟩, hus⟩, htz⟩ := h
  show fromisoChars (isoChars _) = _
  have ey := parseDigits4_pad4 (n := y) (by omega)
  have emo := parseDigits2_pad2 (n := mo) (by omega)
  have edd := parseDigits2_pad2 (n := dd) (by omega)
  have ehh := parseDigits2_pad2 (n := hh) (by omega)
  have emi := parseDigits2_pad2 (n := mi) (by omega)
  have ess := parseDigits2_pad2 (n := ss) (by omega)
  simp only [isoChars, List.append_assoc, List.cons_append, List.nil_append, fromisoChars,
    ey, emo, edd, ehh, emi, ess, expectC_cons]
  rw [dif_pos ⟨hy1, hmo1, hmo2, hd1, hd2⟩]
  rw [dif_pos ⟨hhh, hmi, hss⟩]
  have e6 : parseDigits6 (pad6 us) = some (us, []) := by
    simpa using parseDigits6_pad6 (by omega : us ≤ 999999) []
  cases tz with
  | none =>
    by_cases hus0 : us = 0
    · subst hus0
      simp [parseFrac, parseTz]
    · simp only [if_pos hus0, List.append_nil, List.cons_append]
      simp [parseFrac, e6, parseTz]
  | some off =>
    simp at htz
    have etz := @parseTz_tzSuffix off (by omega)
    have hnodot : parseFrac (tzSuffix off) = some (0, tzSuffix off) := by
      apply parseFrac_no_dot
      intro r hr
      simp only [tzSuffix] at hr
      rcases lt_or_le off 0 with hneg | hpos
      · rw [if_pos hneg] at hr
        simp at hr
      · rw [if_neg (by omega : ¬ off < 0)] at hr
        simp at hr
    by_cases hus0 : us = 0
    · subst hus0
      simp only [ne_eq, not_true_eq_false, ite_false, List.nil_append, hnodot, etz]
    · simp only [if_pos hus0, List.cons_append, parseFrac,
        parseDigits6_pad6 (by omega : us ≤ 999999), etz]

/-! ### Python floats as decimal literals

The queue transports floats as text (`str(value)` on serialize, `float(value)`
on deserialize).  A `PyFloat` models the decimal literal
`(-1)^neg * mag / 10 ^ fracDigits`; `str` of an actual Python float always
prints with at least one fractional digit (`fracDigits ≥ 1`), while
`fracDigits = 0` represents an integer-shaped literal accepted by `float`. -/

structure PyFloat where
  neg : Bool
  mag : Nat
  fracDigits : Nat
deriving DecidableEq, Repr

/-- The float `0.0`, Python's default for a missing or unparsable score. -/
def pyFloatZero : PyFloat := ⟨false, 0, 1⟩

/-- Digits of the unsigned decimal literal: integer part, `'.'`, exactly
`k` fraction digits; no `'.'` when `k = 0`. -/
def floatCharsUnsigned (mag k : Nat) : List Char :=
  if k = 0 then natToChars mag
  else natToChars (mag / 10 ^ k) ++ '.' :: padZeros k (natToChars (mag % 10 ^ k))

/-- Decimal rendering of a `PyFloat` (models `str`/`repr` of a Python float in
fixed-point range). -/
def floatChars (f : PyFloat) : List Char :=
  (if f.neg then ['-'] else []) ++ floatCharsUnsigned f.mag f.fracDigits

/-- `str(value)` for a float value. -/
def floatStr (f : PyFloat) : String := ⟨floatChars f⟩

/-- Parse the unsigned part of a decimal literal: `digits[.digits]`. -/
def parseUnsignedFloat (neg : Bool) (l1 : List Char) : Option PyFloat :=
  let ip := l1.takeWhile isDigitC
  let rest := l1.dropWhile isDigitC
  if ip = [] then none
  else match rest with
    | [] => some ⟨neg, digitsVal ip, 0⟩
    | '.' :: frac =>
      if frac.all isDigitC then
        some ⟨neg, digitsVal ip * 10 ^ frac.length + digitsVal frac, frac.length⟩
      else none
    | _ => none

/-- Model of Python's `float(text)` on plain decimal literals
(`[-]digits[.digits]`); returns `none` where Python raises `ValueError`.
Exponent, `inf`/`nan`, leading `+` and surrounding whitespace are outside the
modelled grammar, which covers everything the pipeline serializes. -/
def parseFloatChars (l : List Char) : Option PyFloat :=
  match l with
  | [] => none
  | c :: r => if c = '-' then parseUnsignedFloat true r else parseUnsignedFloat false (c :: r)

/-- `float(text)` on strings. -/
def parseFloat (s : String) : Option PyFloat := parseFloatChars s.data

theorem takeWhile_append_of_all {p : Char → Bool} {l : List Char} (h : ∀ c ∈ l, p c = true)
    {c : Char} (hc : p c = false) (rest : List Char) :
    (l ++ c :: rest).takeWhile p = l ∧ (l ++ c :: rest).dropWhile p = c :: rest := by
  induction l with
  | nil => simp [List.takeWhile, List.dropWhile, hc]
  | cons a l ih =>
    have ha : p a = true := h a (by simp)
    have ih2 := ih (fun x hx => h x (by simp [hx]))
    simp only [List.cons_append, List.takeWhile_cons, List.dropWhile_cons, ha, ite_true]
    exact ⟨by rw [ih2.1], by rw [ih2.2]⟩

theorem takeWhile_all_of_all {p : Char → Bool} {l : List Char} (h : ∀ c ∈ l, p c = true) :
    l.takeWhile p = l ∧ l.dropWhile p = [] := by
  induction l with
  | nil => simp
  | cons a l ih =>
    have ha : p a = true := h a (by simp)
    have ih2 := ih (fun x hx => h x (by simp [hx]))
    simp only [List.takeWhile_cons, List.dropWhile_cons, ha, ite_true]
    exact ⟨by rw [ih2.1], ih2.2⟩

theorem digit_ne_dash {c : Char} (h : isDigitC c = true) : c ≠ '-' := by
  intro hc
  subst hc
  exact absurd h (by decide)

theorem floatCharsUnsigned_all_head {mag k : Nat} :
    ∃ c r, floatCharsUnsigned mag k = c :: r ∧ isDigitC c = true := by
  unfold floatCharsUnsigned
  split
  · rcases hl : natToChars mag with _ | ⟨c, r⟩
    · exact absurd hl (natToChars_ne_nil mag)
    · exact ⟨c, r, rfl, natToChars_all_digits mag c (by rw [hl]; simp)⟩
  · rcases hl : natToChars (mag / 10 ^ k) with _ | ⟨c, r⟩
    · exact absurd hl (natToChars_ne_nil _)
    · refine ⟨c, r ++ '.' :: padZeros k (natToChars (mag % 10 ^ k)), by simp [hl], ?_⟩
      exact natToChars_all_digits _ c (by rw [hl]; simp)

theorem parseUnsignedFloat_render (neg : Bool) (mag k : Nat) :
    parseUnsignedFloat neg (floatCharsUnsigned mag k) = some ⟨neg, mag, k⟩ := by
  rcases Nat.eq_zero_or_pos k with hk | hk
  · subst hk
    have htk := takeWhile_all_of_all (natToChars_all_digits mag)
    simp only [floatCharsUnsigned, ite_true, parseUnsignedFloat, htk.1, htk.2,
      if_neg (natToChars_ne_nil mag)]
    rw [digitsVal_natToChars]
  · have hkne : ¬ k = 0 := by omega
    have hmod : mag % 10 ^ k < 10 ^ k := Nat.mod_lt _ (Nat.pos_pow_of_pos k (by omega))
    have hlen : (padZeros k (natToChars (mag % 10 ^ k))).length = k :=
      padZeros_length (natToChars_length_le hk hmod)
    have hfracall : ∀ c ∈ padZeros k (natToChars (mag % 10 ^ k)), isDigitC c = true :=
      padZeros_all_digits (natToChars_all_digits _)
    have hsplit := takeWhile_append_of_all (natToChars_all_digits (mag / 10 ^ k))
      (c := '.') (by decide) (padZeros k (natToChars (mag % 10 ^ k)))
    simp only [floatCharsUnsigned, if_neg hkne, parseUnsignedFloat, hsplit.1, hsplit.2,
      if_neg (natToChars_ne_nil _)]
    rw [if_pos (by simpa using hfracall)]
    simp only [Option.some.injEq, PyFloat.mk.injEq, true_and]
    constructor
    · rw [hlen, digitsVal_natToChars, digitsVal_padZeros, digitsVal_natToChars]
      exact Nat.div_add_mod' mag (10 ^ k)
    · exact hlen

/-- Library contract behind the queue's `engagement_score` field:
`float` inverts `str` on every decimal literal. -/
theorem parseFloat_floatStr (f : PyFloat) : parseFloat (floatStr f) = some f := by
  obtain ⟨neg, mag, k⟩ := f
  show parseFloatChars (floatChars _) = _
  obtain ⟨c, r, hcr, hcd⟩ := @floatCharsUnsigned_all_head mag k
  cases neg with
  | true =>
    simp only [floatChars, ite_true, List.cons_append, List.nil_append, parseFloatChars,
      if_pos rfl]
    exact parseUnsignedFloat_render true mag k
  | false =>
    simp only [floatChars, Bool.false_eq_true, if_false, List.nil_append]
    rw [hcr]
    simp only [parseFloatChars, if_neg (digit_ne_dash hcd)]
    rw [← hcr]
    exact parseUnsignedFloat_render false mag k

/-! ### Python values carried by article dicts

Article dicts hold the value shapes the producers and the deserializer create:
`None`, `str`, `bool`, `int`, `float`, `datetime`.  (The serializer's final
`json.dumps` branch for lists/dicts is never reached for these shapes.) -/

inductive PyValue where
  | vNone : PyValue
  | vStr (s : String) : PyValue
  | vBool (b : Bool) : PyValue
  | vInt (n : Int) : PyValue
  | vFloat (f : PyFloat) : PyValue
  | vDatetime (d : PyDatetime) : PyValue
deriving DecidableEq, Repr

open PyValue

/-- Python `str(int)`. -/
def intChars (n : Int) : List Char :=
  if n < 0 then '-' :: natToChars n.natAbs else natToChars n.natAbs

/-- Python's `str(datetime)` (`isoformat` with a `' '` separator), used when a
value is interpolated into an f-string. -/
def strDatetimeChars (d : PyDatetime) : List Char :=
  pad4 d.year ++ '-' :: pad2 d.month ++ '-' :: pad2 d.day ++
  ' ' :: pad2 d.hour ++ ':' :: pad2 d.minute ++ ':' :: pad2 d.second ++
  (if d.microsecond ≠ 0 then '.' :: pad6 d.microsecond else []) ++
  (match d.tzOffset with
   | none => []
   | some off => tzSuffix off)

/-- F-string conversion `str(value)` of an arbitrary dict value. -/
def pyStrOf : PyValue → String
  | vNone => "None"
  | vStr s => s
  | vBool true => "True"
  | vBool false => "False"
  | vInt n => ⟨intChars n⟩
  | vFloat f => floatStr f
  | vDatetime d => ⟨strDatetimeChars d⟩

/-- Python truthiness of a dict value (`bool(value)`). -/
def pyTruthy : PyValue → Bool
  | vNone => false
  | vStr s => !(s.data.isEmpty)
  | vBool b => b
  | vInt n => n ≠ 0
  | vFloat f => f.mag ≠ 0
  | vDatetime _ => true

/-! #### A `json.loads` model for scalar literals

The deserializer tries `json.loads` on every generic field and keeps the text
on failure.  The values in play are scalars, so the model parses the JSON
literals `null`, `true`, `false`, plain numbers and escape-free strings —
on these it returns exactly what `json.loads` returns.  It is partial on the
rest of the JSON grammar (exponent numbers, escaped strings, `NaN`,
whitespace-padded documents, containers), so all round-trip theorems below
restrict their string fields with `jsonRejected`: a first character that can
start no JSON document, on which `json.loads` provably raises and the model
provably returns `none`, so model and program agree. -/

/-- JSON integer grammar: optional `-`, then `0` alone or a nonzero-led digit
run. -/
def jsonIntDigitsOk : List Char → Bool
  | [] => false
  | c :: rest =>
    if c = '0' then rest.isEmpty
    else isDigitC c && rest.all isDigitC

/-- The integer-dot-fraction shape of a JSON number, sign already stripped. -/
def jsonNumberCore (neg : Bool) (l1 : List Char) : Option PyValue :=
  match splitOnL ['.'] l1 with
  | [ip] =>
    if jsonIntDigitsOk ip then
      some (vInt (if neg then -(digitsVal ip : Int) else (digitsVal ip : Int)))
    else none
  | [ip, frac] =>
    if jsonIntDigitsOk ip && !frac.isEmpty && frac.all isDigitC then
      some (vFloat ⟨neg, digitsVal ip * 10 ^ frac.length + digitsVal frac, frac.length⟩)
    else none
  | _ => none

/-- Parse a JSON number (no exponent part, which never arises here). -/
def jsonNumber (l : List Char) : Option PyValue :=
  if l.head? = some '-' then jsonNumberCore true l.tail else jsonNumberCore false l

/-- Model of `json.loads` on the character list; `none` models
`json.JSONDecodeError`. -/
def jsonParseL : List Char → Option PyValue
  | [] => none
  | c :: rest =>
    if c :: rest = "null".data then some vNone
    else if c :: rest = "true".data then some (vBool true)
    else if c :: rest = "false".data then some (vBool false)
    else if c = '"' then
      if rest ≠ [] && rest.getLast? = some '"' &&
          (rest.dropLast.all fun x => x ≠ '"' && x ≠ '\\') then
        some (vStr ⟨rest.dropLast⟩)
      else none
    else jsonNumber (c :: rest)

/-- Model of `json.loads` restricted to scalar literals. -/
def jsonParse (s : String) : Option PyValue := jsonParseL s.data

/-- The characters able to begin a JSON document for Python's `json.loads`:
leading whitespace is skipped, after which a value must open with an object,
array or string delimiter, a sign or digit, or the first letter of `true`,
`false`, `null`, `NaN` or `Infinity`.  `json.loads` raises on any text whose
first character lies outside this set. -/
def jsonDocStart (c : Char) : Bool :=
  c = '{' || c = '[' || c = '"' || c = '-' || isDigitC c ||
  c = 't' || c = 'f' || c = 'n' || c = 'N' || c = 'I' ||
  c = ' ' || c = '\t' || c = '\n' || c = '\r'

/-- A non-empty string that no `json.loads` call can parse: its first
character neither starts a JSON value nor is skippable whitespace.  On such
text the deserializer's generic branch always keeps the string. -/
def jsonRejected (s : String) : Bool :=
  match s.data with
  | [] => false
  | c :: _ => !jsonDocStart c

theorem jsonIntDigitsOk_false {c : Char} (p : List Char) (hd : isDigitC c = false) :
    jsonIntDigitsOk (c :: p) = false := by
  have hc0 : c ≠ '0' := by rintro rfl; exact absurd hd (by decide)
  simp [jsonIntDigitsOk, hc0, hd]

theorem splitOnGo_ne_nil (sep : List Char) (fuel : Nat) (l : List Char) :
    splitOnGo sep fuel l ≠ [] := by
  cases l with
  | nil => simp [splitOnGo]
  | cons c rest =>
    cases fuel with
    | zero => simp [splitOnGo]
    | succ fuel =>
      simp only [splitOnGo]
      split
      · simp
      · split <;> simp

theorem splitOnL_cons_head {sep : List Char} {c : Char} {rest : List Char}
    (h : sep.isPrefixOf (c :: rest) = false) :
    ∃ p ps, splitOnL sep (c :: rest) = (c :: p) :: ps := by
  simp only [splitOnL, List.length_cons, splitOnGo]
  rw [if_neg (by simp [h])]
  cases hgo : splitOnGo sep rest.length rest with
  | nil => exact ⟨[], [], rfl⟩
  | cons piece pieces => exact ⟨piece, pieces, rfl⟩

theorem splitOnL_dot_head (rest : List Char) :
    ∃ ps, splitOnL ['.'] ('.' :: rest) = [] :: ps ∧ ps ≠ [] := by
  simp only [splitOnL, List.length_cons, splitOnGo]
  rw [if_pos ⟨by simp [List.isPrefixOf], by simp⟩]
  exact ⟨_, rfl, splitOnGo_ne_nil _ _ _⟩

theorem jsonNumberCore_none_of_bad_head {neg : Bool} {c : Char} {rest : List Char}
    (hd : isDigitC c = false) :
    jsonNumberCore neg (c :: rest) = none := by
  unfold jsonNumberCore
  by_cases hdot : c = '.'
  · subst hdot
    obtain ⟨ps, hsp, hps⟩ := splitOnL_dot_head rest
    rw [hsp]
    rcases ps with _ | ⟨q, qs⟩
    · exact absurd rfl hps
    · rcases qs with _ | ⟨r, rs⟩
      · simp [jsonIntDigitsOk]
      · rfl
  · have hpre : List.isPrefixOf ['.'] (c :: rest) = false := by
      have hb : ('.' == c) = false := beq_eq_false_iff_ne.mpr (Ne.symm hdot)
      simp [List.isPrefixOf, hb]
    obtain ⟨p, ps, hsp⟩ := splitOnL_cons_head hpre
    rw [hsp]
    rcases ps with _ | ⟨q, qs⟩
    · simp [jsonIntDigitsOk_false p hd]
    · rcases qs with _ | ⟨r, rs⟩
      · simp [jsonIntDigitsOk_false p hd]
      · rfl

theorem jsonNumber_none_of_bad_head {c : Char} {rest : List Char}
    (hd : isDigitC c = false) (hm : c ≠ '-') :
    jsonNumber (c :: rest) = none := by
  rw [jsonNumber, if_neg (by simp [hm])]
  exact jsonNumberCore_none_of_bad_head hd

theorem jsonParseL_none_of_bad_start {c : Char} {rest : List Char}
    (h : jsonDocStart c = false) :
    jsonParseL (c :: rest) = none := by
  have hq : c ≠ '"' := by rintro rfl; exact absurd h (by decide)
  have hm : c ≠ '-' := by rintro rfl; exact absurd h (by decide)
  have hd : isDigitC c = false := by
    cases hs : isDigitC c with
    | false => rfl
    | true =>
      have hds : jsonDocStart c = true := by simp [jsonDocStart, hs]
      rw [hds] at h
      exact Bool.noConfusion h
  have h1 : c :: rest ≠ "null".data := by
    intro he
    rw [show "null".data = 'n' :: "ull".data from rfl] at he
    injection he with he1 _
    rw [he1] at h
    exact absurd h (by decide)
  have h2 : c :: rest ≠ "true".data := by
    intro he
    rw [show "true".data = 't' :: "rue".data from rfl] at he
    injection he with he1 _
    rw [he1] at h
    exact absurd h (by decide)
  have h3 : c :: rest ≠ "false".data := by
    intro he
    rw [show "false".data = 'f' :: "alse".data from rfl] at he
    injection he with he1 _
    rw [he1] at h
    exact absurd h (by decide)
  simp only [jsonParseL]
  rw [if_neg h1, if_neg h2, if_neg h3, if_neg hq]
  exact jsonNumber_none_of_bad_head hd hm

/-- On a string whose first character cannot begin a JSON document, the
`json.loads` model fails, exactly as `json.loads` itself raises. -/
theorem jsonParse_none_of_rejected {s : String} (h : jsonRejected s = true) :
    jsonParse s = none := by
  rcases hs : s.data with _ | ⟨c, rest⟩
  · rw [jsonParse, hs]
    rfl
  · have hc : jsonDocStart c = false := by
      rw [jsonRejected, hs] at h
      simpa using h
    rw [jsonParse, hs]
    exact jsonParseL_none_of_bad_start hc

/-- A `jsonRejected` string is in particular non-empty. -/
theorem ne_empty_of_jsonRejected {s : String} (h : jsonRejected s = true) : s ≠ "" := by
  rintro rfl
  exact absurd h (by decide)

/-! ### The queue serializer and deserializer

These model `NewsStream._serialize_article` and
`NewsStream._deserialize_article` in `app/pipeline/streams.py`. -/

/-- One field of `_serialize_article`: `None` becomes `""`, datetimes become
`isoformat()`, numbers and booleans become `str(value)`, strings pass through.
(The isinstance chain tests `None`, `datetime`, `(int, float, bool)`, `str` in
that order; `json.dumps` handles remaining container types, which do not occur
in article dicts.) -/
def serializeField : PyValue → String
  | vNone => ""
  | vDatetime d => isoformat d
  | vBool true => "True"
  | vBool false => "False"
  | vInt n => ⟨intChars n⟩
  | vFloat f => floatStr f
  | vStr s => s

/-- One field of `_deserialize_article`, dispatching on the key exactly as the
Python loop does. -/
def deserializeField (key : String) (value : String) : PyValue :=
  if key = "stream_id" then vStr value
  else if key = "published_at" ∨ key = "scraped_at" then
    (if value ≠ "" then
      match fromiso value with
      | some d => vDatetime d
      | none => vNone
    else vNone)
  else if key = "engagement_score" then
    vFloat (if value ≠ "" then (parseFloat value).getD pyFloatZero else pyFloatZero)
  else if key = "is_processed" then
    vBool (decide (lowerStr value = "true" ∨ lowerStr value = "1" ∨ lowerStr value = "yes"))
  else if value = "" then vNone
  else match jsonParse value with
    | some v => v
    | none => vStr value

/-- `_serialize_article`: every dict value to its transport text, keys kept. -/
def serializeArticle (d : List (String × PyValue)) : List (String × String) :=
  d.map fun kv => (kv.1, serializeField kv.2)

/-- `_deserialize_article`: every transport text back to a typed value. -/
def deserializeArticle (fields : List (String × String)) : List (String × PyValue) :=
  fields.map fun kv => (kv.1, deserializeField kv.1 kv.2)

/-- Python `dict.get(key, default)`: the stored value when the key is present
(even when that value is `None`), the default otherwise. -/
def pyGet (d : List (String × PyValue)) (key : String) (dflt : PyValue) : PyValue :=
  match d.lookup key with
  | some v => v
  | none => dflt

/-- Python `dict[key]`: `none` models the `KeyError` path. -/
def pyGetOpt (d : List (String × PyValue)) (key : String) : Option PyValue :=
  d.lookup key

/-! ### The fallback categorizer and summarizer

Models of the pure parts of `LMStudioSummarizer` in
`app/pipeline/summarizer.py`. -/

/-- The `priority_keywords` table of `_keyword_categorize_article`, in source
order (Python dicts iterate in insertion order). -/
def priorityKeywords : List (String × List String) :=
  [("ukraine", ["ukraine", "ukrainian", "russia", "russian", "putin", "zelensky", "kyiv",
      "moscow", "war in ukraine", "invasion", "nato aid"]),
   ("gaza", ["gaza", "israel", "israeli", "palestinian", "palestine", "hamas", "west bank",
      "jerusalem", "netanyahu", "israel-palestine", "idf", "middle east conflict"]),
   ("swiss", ["switzerland", "swiss", "zurich", "geneva", "bern", "basel", "swiss franc",
      "swiss bank"]),
   ("europe", ["european union", "eu ", "brexit", "european commission", "eurozone",
      "european parliament"]),
   ("ai", ["artificial intelligence", "ai ", "machine learning", "chatgpt", "openai", "llm",
      "neural network", "deep learning", "gpt", "claude", "anthropic"]),
   ("crypto", ["bitcoin", "cryptocurrency", "blockchain", "ethereum", "defi", "nft",
      "crypto "]),
   ("tech", ["technology", "software", "hardware", "startup", "silicon valley", "app store",
      "cyber", "programming", "developer"]),
   ("finance", ["stock market", "wall street", "nasdaq", "dow jones", "federal reserve",
      "inflation", "economy"]),
   ("science", ["research", "study finds", "scientists", "discovery", "space", "nasa",
      "climate change"]),
   ("health", ["health", "medical", "hospital", "doctor", "disease", "vaccine", "pandemic",
      "covid"]),
   ("premier_league", ["premier league", "manchester united", "manchester city", "liverpool",
      "chelsea", "arsenal", "tottenham", "football", "premier league", "epl",
      "english football"])]

/-- The per-category raw score: for each keyword,
`title.lower().count(kw) * 5 + text_to_analyze.count(kw) * 2`, where
`text_to_analyze = (title + " " + content[:500]).lower()` — so the `×2` term
scans the title again, not just the content window. -/
def rawScore (title content : String) (kws : List String) : Nat :=
  (kws.map fun kw =>
    strCount kw (lowerStr title) * 5 +
    strCount kw (lowerStr (title ++ " " ++ takeStr 500 content)) * 2).sum

/-- The priority multiplier applied to a positive score. -/
def applyMultiplier (cat : String) (score : Nat) : Nat :=
  if cat = "ukraine" ∨ cat = "gaza" then score * 3
  else if cat = "swiss" then score * 2
  else score

/-- The `category_scores` dict: per category, the multiplied score, keeping
only categories whose raw score is positive, in table order. -/
def categoryScores (title content : String) : List (String × Nat) :=
  priorityKeywords.filterMap fun ck =>
    let s := rawScore title content ck.2
    if s > 0 then some (ck.1, applyMultiplier ck.1 s) else none

/-- Python's `max(d, key=d.get)`: the first key attaining the maximal value. -/
def firstMax (l : List (String × Nat)) : Option String :=
  (l.foldl (fun acc kv =>
    match acc with
    | none => some kv
    | some best => if kv.2 > best.2 then some kv else acc) none).map Prod.fst

/-- Model of `_categorize_by_source`: substring checks against the lowered
source name, in source order. -/
def categorizeBySource (source : String) : String :=
  let s := lowerStr source
  if ["ars technica", "verge", "techcrunch", "hacker news", "wired",
      "engadget"].any (fun p => strContains p s) then "tech"
  else if ["ai news", "venturebeat", "mit technology"].any (fun p => strContains p s) then "ai"
  else if ["financial times", "bloomberg", "reuters", "marketwatch",
      "yahoo finance"].any (fun p => strContains p s) then "finance"
  else if ["nzz", "tages-anzeiger", "swissinfo",
      "local switzerland"].any (fun p => strContains p s) then "swiss"
  else if strContains "reddit" s then
    (if strContains "technology" s ∨ strContains "artificial" s then "tech"
     else if strContains "worldnews" s then "world"
     else if strContains "switzerland" s then "swiss"
     else "world")
  else "world"

/-- Model of `_keyword_categorize_article` on string fields: the best-scoring
category when any score is positive, otherwise the source heuristic. -/
def keywordCategorize (title content source : String) : String :=
  match firstMax (categoryScores title content) with
  | some cat => cat
  | none => categorizeBySource source

/-- Python `s[:120].rsplit(" ", 1)[0]`: everything before the last space of the
first 120 characters (the whole prefix when it has no space). -/
def truncAtWordBoundary (content : String) : String :=
  let pre := content.data.take 120
  if ' ' ∈ pre then ⟨(pre.reverse.dropWhile (fun c => c ≠ ' ')).tail.reverse⟩
  else ⟨pre⟩

/-- Model of `_fallback_summary` on a string `content` and the displayed
source text: first `". "`-sentence when longer than 20 characters, else a
120-character word-boundary truncation with `"..."` when the content exceeds
120 characters, else `"News from {source}"` (also for empty content). -/
def fallbackSummary (content sourceText : String) : String :=
  if content ≠ "" then
    let sentences := splitStr ". " content
    let first := sentences.headD ""
    if first.data.length > 20 then first ++ "."
    else if content.data.length > 120 then truncAtWordBoundary content ++ "..."
    else "News from " ++ sourceText
  else "News from " ++ sourceText

/-- The boilerplate lead-ins stripped by `_clean_summary`. -/
def unwantedLeadIns : List String :=
  ["Here is a summary of the news article in 1-2 clear, factual sentences:",
   "Here is a summary of the article in 1-2 sentences:",
   "Here is a 1-2 sentence summary:",
   "Here's a summary:",
   "Summary:",
   "In summary:",
   "The article reports that",
   "According to the article,",
   "This article discusses",
   "The news article states that"]

/-- Python `s.startswith(p)` (case-insensitive form used by `_clean_summary`). -/
def startsWithLower (p s : String) : Bool :=
  (lowerStr p).data.isPrefixOf (lowerStr s).data

/-- Strip the first matching lead-in (the loop breaks after one match). -/
def stripLeadIn (s : String) : String :=
  match unwantedLeadIns.find? (fun p => startsWithLower p s) with
  | some p => stripStr ⟨s.data.drop p.data.length⟩
  | none => s

/-- Model of `_clean_summary`: strip, drop one lead-in, unwrap whole-string
quotes, capitalize the first letter, drop leading `:`/`-`/whitespace, strip. -/
def cleanSummary (raw : String) : String :=
  let s1 := stripLeadIn (stripStr raw)
  let s2 : String :=
    if s1.data.head? = some '"' ∧ s1.data.getLast? = some '"' then ⟨s1.data.tail.dropLast⟩
    else s1
  let s3 : String :=
    match s2.data with
    | [] => s2
    | c :: rest => if c.isLower then ⟨c.toUpper :: rest⟩ else s2
  stripStr ⟨s3.data.dropWhile fun c => c = ':' || c = '-' || pyIsSpace c⟩

/-- `summary[:150]` with the configured `summary_max_length`. -/
def truncSummary (s : String) : String := takeStr 150 s

/-! ### Exception-aware summarizer pipeline

`categorize_and_summarize` runs on deserialized dicts whose values are
`PyValue`s; string operations on non-`str` values raise (`TypeError`), missing
mandatory keys raise (`KeyError`).  `Except` models raising; each `except`
handler in the source corresponds to a `match` on the primary result. -/

inductive PyExc where
  | typeError : PyExc
  | keyError : PyExc
  | attributeError : PyExc
deriving DecidableEq, Repr

open PyExc

instance {ε α : Type} [DecidableEq ε] [DecidableEq α] : DecidableEq (Except ε α)
  | .ok a, .ok b => decidable_of_iff (a = b) (by simp)
  | .error a, .error b => decidable_of_iff (a = b) (by simp)
  | .ok _, .error _ => isFalse (by simp)
  | .error _, .ok _ => isFalse (by simp)

/-- The outcome of the two LM Studio calls for one article: `none` models a
timeout or transport/validation error, `some r` the raw response text. -/
structure LlmOracle where
  catReply : Option String
  sumReply : Option String

/-- The closed category list accepted from the model
(`valid_categories` in `_llm_categorize_article`). -/
def validCategories : List String :=
  ["ukraine", "gaza", "swiss", "europe", "ai", "tech", "crypto", "finance", "science",
   "health", "politics", "world", "premier_league"]

/-- `_keyword_categorize_article` on a dict: `article["title"]` raises
`KeyError` when absent; `title + " "` and `content[:500]` raise `TypeError` on
non-string values; `source.lower()` in `_categorize_by_source` raises on a
non-string source (reached only when every score is zero). -/
def keywordCategorizeE (ad : List (String × PyValue)) : Except PyExc String :=
  match pyGetOpt ad "title" with
  | none => .error keyError
  | some (vStr t) =>
    match pyGet ad "content" (vStr "") with
    | vStr c =>
      match firstMax (categoryScores t c) with
      | some cat => .ok cat
      | none =>
        match pyGet ad "source" (vStr "") with
        | vStr s => .ok (categorizeBySource s)
        | _ => .error typeError
    | _ => .error typeError
  | some _ => .error typeError

/-- `_llm_categorize_article`: the prompt build needs `article["title"]`
present and a string `content` (slicing `content[:400]`); any failure there or
in the network call falls back to the keyword categorizer, whose own
exceptions propagate (they are raised inside the `except` handler). -/
def llmCategorizeE (o : LlmOracle) (ad : List (String × PyValue)) : Except PyExc String :=
  match pyGetOpt ad "title", pyGet ad "content" (vStr "") with
  | some _, vStr _ =>
    match o.catReply with
    | some r =>
      let c := lowerStr (stripStr r)
      if c ∈ validCategories then .ok c else keywordCategorizeE ad
    | none => keywordCategorizeE ad
  | _, _ => keywordCategorizeE ad

/-- `_fallback_summary` on a dict: a falsy `content` (`None`, `""`, zero)
takes the `"News from {source}"` path (f-string accepts any source value); a
truthy non-string content raises `TypeError` at `content.split(". ")`. -/
def fallbackSummaryE (ad : List (String × PyValue)) : Except PyExc String :=
  let sourceText := pyStrOf (pyGet ad "source" (vStr "Unknown source"))
  match pyGet ad "content" (vStr "") with
  | vStr c => .ok (fallbackSummary c sourceText)
  | v => if pyTruthy v then .error typeError else .ok ("News from " ++ sourceText)

/-- `summarize_article`: the prompt build needs `article["title"]` present and
a string `content` (slicing `content[:800]`); on any failure there or in the
network call, `_fallback_summary` runs inside the `except` handler and its own
exceptions propagate.  A successful response is cleaned and truncated. -/
def summarizeArticleE (o : LlmOracle) (ad : List (String × PyValue)) : Except PyExc String :=
  match pyGetOpt ad "title", pyGet ad "content" (vStr "") with
  | some _, vStr _ =>
    match o.sumReply with
    | some raw => .ok (truncSummary (cleanSummary (stripStr raw)))
    | none => fallbackSummaryE ad
  | _, _ => fallbackSummaryE ad

/-- `categorize_and_summarize`: try the LLM paths; on any exception fall back
to `_keyword_categorize_article` + `_fallback_summary`, whose exceptions
escape to the caller. -/
def categorizeAndSummarizeE (o : LlmOracle) (ad : List (String × PyValue)) :
    Except PyExc (String × String) :=
  match llmCategorizeE o ad, summarizeArticleE o ad with
  | .ok c, .ok s => .ok (c, s)
  | _, _ =>
    match keywordCategorizeE ad, fallbackSummaryE ad with
    | .ok c, .ok s => .ok (c, s)
    | .error e, _ => .error e
    | _, .error e => .error e

/-! ### The ingestion queue

A model of the Redis stream with one consumer group, as `NewsStream` uses it:
`XADD` appends with a strictly increasing id, `XREADGROUP` with `">"` delivers
only entries beyond the group's last-delivered id and moves them to the
pending list, `XACK` removes one id from the pending list.  `NewsStream` never
reclaims pending entries (`XCLAIM`/`XAUTOCLAIM` are never called). -/

structure StreamEntry where
  id : Nat
  fields : List (String × String)
deriving DecidableEq, Repr

structure StreamState where
  entries : List StreamEntry
  nextId : Nat
  lastDelivered : Nat
  pending : List Nat
deriving DecidableEq, Repr

/-- The freshly created stream with its consumer group. -/
def emptyStream : StreamState := ⟨[], 1, 0, []⟩

/-- `XADD`: durable append with the next strictly increasing id. -/
def xadd (fields : List (String × String)) (s : StreamState) : StreamState :=
  { s with entries := s.entries ++ [⟨s.nextId, fields⟩], nextId := s.nextId + 1 }

/-- The entries an `XREADGROUP ">"` with `COUNT n` delivers: the first `n`
entries beyond the group's last-delivered id. -/
def readEntries (n : Nat) (s : StreamState) : List StreamEntry :=
  (s.entries.filter fun e => s.lastDelivered < e.id).take n

/-- The stream state after that read: delivered ids join the pending list and
the group's last-delivered id advances to the greatest delivered id. -/
def afterRead (n : Nat) (s : StreamState) : StreamState :=
  let batch := readEntries n s
  { s with
    pending := s.pending ++ batch.map (·.id)
    lastDelivered := batch.foldl (fun acc e => max acc e.id) s.lastDelivered }

/-- `XACK`: remove one id from the pending list. -/
def xack (i : Nat) (s : StreamState) : StreamState :=
  { s with pending := s.pending.erase i }

/-- `NewsStream.add_article`: serialize all fields and `XADD` them. -/
def addArticle (d : List (String × PyValue)) (s : StreamState) : StreamState :=
  xadd (serializeArticle d) s

/-- `NewsStream.read_articles`: claim up to `n` new messages and deserialize
each, pairing the typed dict with its message id (`article["stream_id"]`). -/
def readArticles (n : Nat) (s : StreamState) :
    List (List (String × PyValue) × Nat) × StreamState :=
  ((readEntries n s).map fun e => (deserializeArticle e.fields, e.id), afterRead n s)

/-! ### The article store and the processing stage

Models of the `Article` rows and `NewsScheduler.process_article_stream` in
`app/scheduler/tasks.py`. -/

/-- An `Article` row as the processing stage creates it.  `scraped_at` is the
column default `utc_now()` at insert time. -/
structure ArticleRow where
  url : PyValue
  title : PyValue
  content : PyValue
  summary : Option String
  source : PyValue
  source_type : PyValue
  category : Option String
  published_at : Option PyDatetime
  scraped_at : PyDatetime
  engagement_score : PyValue
  is_processed : Bool
deriving DecidableEq, Repr

/-- The persistent store: the list of `Article` rows in insertion order. -/
abbrev ArticleDb := List ArticleRow

/-- The tz-normalization step of `process_article_stream` (lines 152-155):

```python
published_at = article_data.get("published_at")
if published_at and hasattr(published_at, 'tzinfo') and published_at.tzinfo:
    published_at = published_at.astimezone(datetime.timezone.utc).replace(tzinfo=None)
```

`datetime` here is the class imported by `from datetime import datetime`, so
`datetime.timezone` raises `AttributeError` whenever the branch is entered —
every timezone-aware value makes the article fail instead of being
normalized.  A naive or missing value passes through untouched; non-datetime
values have no `tzinfo` attribute and also pass through (they do not occur for
this key after deserialization). -/
def normalizePublishedAtE (v : PyValue) : Except PyExc (Option PyDatetime) :=
  match v with
  | vDatetime d =>
    match d.tzOffset with
    | some _ => .error attributeError
    | none => .ok (some d)
  | _ => .ok none

/-- Processing of a single claimed message (the body of the `for` loop of
`process_article_stream`, lines 135-181): skip-and-ack when the URL already
has a row; otherwise classify, normalize the timestamp, insert, ack; any
exception leaves the database unchanged and the message unacknowledged. -/
def processOne (o : Nat → LlmOracle) (now : PyDatetime)
    (st : ArticleDb × StreamState) (msg : List (String × PyValue) × Nat) :
    ArticleDb × StreamState :=
  let (db, s) := st
  let (ad, sid) := msg
  match pyGetOpt ad "url" with
  | none => (db, s)
  | some url =>
    if db.any (fun r => r.url == url) then (db, xack sid s)
    else
      match categorizeAndSummarizeE (o sid) ad with
      | .error _ => (db, s)
      | .ok (cat, summ) =>
        match normalizePublishedAtE (pyGet ad "published_at" vNone) with
        | .error _ => (db, s)
        | .ok pa =>
          match pyGetOpt ad "title", pyGetOpt ad "source", pyGetOpt ad "source_type" with
          | some tv, some sv, some stv =>
            let row : ArticleRow :=
              { url := url
                title := tv
                content := pyGet ad "content" (vStr "")
                summary := some summ
                source := sv
                source_type := stv
                category := some cat
                published_at := pa
                scraped_at := now
                engagement_score := pyGet ad "engagement_score" (vFloat pyFloatZero)
                is_processed := true }
            (db ++ [row], xack sid s)
          | _, _, _ => (db, s)

/-- `process_article_stream`: read up to 5 messages and process each in turn
(each article gets its own session; one failure does not stop the others). -/
def processArticleStream (o : Nat → LlmOracle) (now : PyDatetime)
    (st : ArticleDb × StreamState) : ArticleDb × StreamState :=
  let (batch, s1) := readArticles 5 st.2
  batch.foldl (processOne o now) (st.1, s1)

/-! ### The digest assembler

Models of `NewsScheduler._select_articles_for_digest` and
`NewsScheduler.create_digest`.  The candidate list parameter stands for the
result of the windowed store query (processed articles of the lookback
window, ordered by `(engagement_score desc, scraped_at desc)`, capped at
`2 * max_stories_per_digest`). -/

/-- Configured digest size cap (`settings.max_stories_per_digest`). -/
def maxStoriesPerDigest : Nat := 20

/-- Per-category quota: 5 for morning/evening digests, 3 otherwise. -/
def maxPerCategory (digestType : String) : Nat :=
  if digestType = "morning" ∨ digestType = "evening" then 5 else 3

/-- The `priority_cats` list of `_select_articles_for_digest`, in source
order. -/
def priorityCats : List String :=
  ["ukraine", "gaza", "ai", "tech", "finance", "politics", "premier_league", "swiss", "world"]

/-- The grouping key `article.category or "world"` (`None` and the empty
string are falsy). -/
def groupKey (r : ArticleRow) : String :=
  match r.category with
  | some c => if c = "" then "world" else c
  | none => "world"

/-- Insertion-ordered grouping by category (a Python dict of lists). -/
def addToGroups (groups : List (String × List ArticleRow)) (r : ArticleRow) :
    List (String × List ArticleRow) :=
  if groups.any (fun g => g.1 == groupKey r) then
    groups.map fun g => if g.1 == groupKey r then (g.1, g.2 ++ [r]) else g
  else groups ++ [(groupKey r, [r])]

/-- Group the candidate list by category, preserving both key first-seen order
and per-category article order. -/
def groupByCategory (articles : List ArticleRow) : List (String × List ArticleRow) :=
  articles.foldl addToGroups []

/-- Numeric value of `x.engagement_score or 0` (a falsy score, `None` or
`0.0`, becomes `0`; scores are floats wherever rows are created). -/
def scoreVal : PyValue → ℚ
  | vFloat f => (if f.neg then -1 else 1) * (f.mag : ℚ) / (10 : ℚ) ^ f.fracDigits
  | vInt n => (n : ℚ)
  | _ => 0

/-- Chronological order on the naive `scraped_at` timestamps. -/
def dtLt (a b : PyDatetime) : Bool :=
  if a.year ≠ b.year then a.year < b.year
  else if a.month ≠ b.month then a.month < b.month
  else if a.day ≠ b.day then a.day < b.day
  else if a.hour ≠ b.hour then a.hour < b.hour
  else if a.minute ≠ b.minute then a.minute < b.minute
  else if a.second ≠ b.second then a.second < b.second
  else a.microsecond < b.microsecond

/-- Strict order on the sort key `(engagement_score or 0, scraped_at)`. -/
def sortKeyLt (a b : ArticleRow) : Bool :=
  scoreVal a.engagement_score < scoreVal b.engagement_score ||
    (scoreVal a.engagement_score = scoreVal b.engagement_score &&
      dtLt a.scraped_at b.scraped_at)

/-- Stable descending insertion: a new element goes before the first strictly
smaller one, after its equals — the order `sorted(key=..., reverse=True)`
produces. -/
def insertDesc (x : ArticleRow) : List ArticleRow → List ArticleRow
  | [] => [x]
  | y :: ys => if sortKeyLt y x then x :: y :: ys else y :: insertDesc x ys

/-- `sorted(cat_articles, key=lambda x: (x.engagement_score or 0, x.scraped_at),
reverse=True)`: stable descending sort. -/
def sortDesc (l : List ArticleRow) : List ArticleRow :=
  l.foldl (fun acc x => insertDesc x acc) []

/-- URL-deduplication and size cap of the final selection loop: first
occurrence wins, stop adding at `max_stories_per_digest`. -/
def dedupCap (l : List ArticleRow) : List ArticleRow :=
  (l.foldl (fun (p : List PyValue × List ArticleRow) a =>
    if ¬ (p.1.contains a.url) ∧ p.2.length < maxStoriesPerDigest then
      (a.url :: p.1, p.2 ++ [a])
    else p) ([], [])).2

/-- Model of `_select_articles_for_digest`: priority categories in source
order (top `max_per_category` of each, re-sorted descending), then the
remaining categories (first 2 articles each), then URL-dedup and the size
cap. -/
def selectArticlesForDigest (articles : List ArticleRow) (digestType : String) :
    List ArticleRow :=
  let groups := groupByCategory articles
  let maxPer := maxPerCategory digestType
  let fromPriority := priorityCats.foldl (fun sel cat =>
    match groups.lookup cat with
    | some catArticles => sel ++ (sortDesc catArticles).take maxPer
    | none => sel) []
  let withOthers := groups.foldl (fun sel g =>
    if g.1 ∈ priorityCats then sel else sel ++ g.2.take 2) fromPriority
  dedupCap withOthers

/-- A `Digest` row as `create_digest` builds it. -/
structure DigestRow where
  digest_type : String
  stories_count : Nat
  categories : List String
deriving DecidableEq, Repr

/-- A `DigestArticle` row: the selected article, its 0-based position, and the
duplicated `category_group`. -/
structure DigestArticleRow where
  article : ArticleRow
  position : Nat
  category_group : Option String
deriving DecidableEq, Repr

/-- First-occurrence deduplication for the `categories` field (Python builds
`set(...)`, whose iteration order is unspecified; no property depends on it). -/
def dedupStrings (l : List String) : List String :=
  (l.foldl (fun acc c => if c ∈ acc then acc else acc ++ [c]) [])

/-- Model of `create_digest` after the store query: with no candidate articles
(or an empty selection) no digest is created; otherwise one `Digest` row plus
one position-numbered `DigestArticle` row per selected article. -/
def createDigest (articles : List ArticleRow) (digestType : String) :
    Option (DigestRow × List DigestArticleRow) :=
  if articles.isEmpty then none
  else
    let sel := selectArticlesForDigest articles digestType
    if sel.isEmpty then none
    else
      some ({ digest_type := digestType
              stories_count := sel.length
              categories := dedupStrings (sel.map groupKey) },
        sel.enum.map fun ia =>
          { article := ia.2, position := ia.1, category_group := ia.2.category })

/-! ### Scheduler gates

Models of the quiet-hour suppression in `collect_news` and `create_digest`,
and of the ungated jobs. -/

/-- `settings.quiet_hours_start` (23, 11 pm). -/
def quietHoursStart : Nat := 23

/-- `settings.quiet_hours_end` (6, 6 am). -/
def quietHoursEnd : Nat := 6

/-- The gate `settings.quiet_hours_start <= current_hour or current_hour <
settings.quiet_hours_end` shared by `collect_news` and the hourly
`create_digest`. -/
def quietSkip (hour : Nat) : Bool :=
  quietHoursStart ≤ hour || hour < quietHoursEnd

/-- `collect_news` at a given hour: during quiet hours no work happens at all;
otherwise every scraped article dict is enqueued.  The scraped list parameter
stands for the adapters' output. -/
def collectNews (hour : Nat) (scraped : List (List (String × PyValue)))
    (s : StreamState) : StreamState :=
  if quietSkip hour then s
  else scraped.foldl (fun st d => addArticle d st) s

/-- `create_digest` as a scheduled job at a given hour: only the hourly digest
is suppressed during quiet hours. -/
def createDigestJob (hour : Nat) (digestType : String) (articles : List ArticleRow) :
    Option (DigestRow × List DigestArticleRow) :=
  if digestType = "hourly" ∧ quietSkip hour then none
  else createDigest articles digestType

/-- `cleanup_old_data` as a scheduled job: deletes article rows scraped before
the 7-day cutoff; the hour parameter is unused — no quiet-hour gate. -/
def cleanupJob (hour : Nat) (cutoff : PyDatetime) (db : List ArticleRow) :
    List ArticleRow :=
  db.filter fun r => ! dtLt r.scraped_at cutoff

/-- `process_article_stream` as a scheduled job: the hour parameter is unused
— no quiet-hour gate. -/
def processJob (hour : Nat) (o : Nat → LlmOracle) (now : PyDatetime)
    (st : ArticleDb × StreamState) : ArticleDb × StreamState :=
  processArticleStream o now st

/-! ### Concrete sample data for witnesses and counterexamples -/

/-- The dict value of an optional `published_at` timestamp. -/
def paValue : Option PyDatetime → PyValue
  | none => vNone
  | some d => vDatetime d

/-- A raw article dict as the RSS adapters build it (`fetch_rss` key order). -/
def rawDict (url title content source stype : String) (pa : Option PyDatetime) :
    List (String × PyValue) :=
  [("url", vStr url), ("title", vStr title), ("content", vStr content),
   ("published_at", paValue pa), ("source", vStr source), ("source_type", vStr stype)]

/-- An oracle for an unreachable LM Studio: every call times out, so both
calls resolve through the deterministic fallbacks. -/
def oracleDown : Nat → LlmOracle := fun _ => ⟨none, none⟩

/-- A fixed ingestion instant for the `scraped_at` column default. -/
def sampleNow : PyDatetime := ⟨2024, 3, 2, 8, 0, 0, 0, none⟩

/-- A well-formed raw article whose fields survive the queue round trip. -/
def sampleArticle : List (String × PyValue) :=
  rawDict "https://example.com/a" "Ukraine war latest" "A long first sentence about the front. More."
    "BBC World" "mainstream" (some ⟨2024, 3, 1, 10, 0, 0, 0, none⟩)

/-- A raw article whose `published_at` carries a UTC offset (`+02:00`). -/
def awareArticle : List (String × PyValue) :=
  rawDict "https://example.com/c" "Zurich morning briefing"
    "A good long first sentence for the test. Rest." "NZZ" "swiss"
    (some ⟨2024, 3, 1, 12, 0, 0, 0, some 120⟩)

/-- A sample processed store row used by digest witnesses. -/
def sampleRow (u : String) (cat : Option String) (score : PyValue) : ArticleRow :=
  { url := vStr u, title := vStr "t", content := vStr "c", summary := some "s",
    source := vStr "src", source_type := vStr "mainstream", category := cat,
    published_at := none, scraped_at := ⟨2024, 3, 1, 0, 0, 0, 0, none⟩,
    engagement_score := score, is_processed := true }

/-! ## The claims -/

/-- C4. The collection job and the hourly digest job perform no work exactly
when the current hour lies in `[quiet_start, 24) ∪ [0, quiet_end)`: with
`quiet_start = 23` and `quiet_end = 6`, a collection trigger at hour 23, 2 or
5 performs no enqueue and at hour 10 it proceeds; morning, evening, cleanup
and stream-processing jobs are never suppressed by quiet hours. -/
theorem C4_quiet_hours_suppression :
    (∀ h : Nat, h < 24 →
      (quietSkip h = true ↔ ((quietHoursStart ≤ h ∧ h < 24) ∨ h < quietHoursEnd))) ∧
    (∀ scraped s, collectNews 23 scraped s = s) ∧
    (∀ scraped s, collectNews 2 scraped s = s) ∧
    (∀ scraped s, collectNews 5 scraped s = s) ∧
    (∀ h scraped s, h < 24 → ¬ (quietHoursStart ≤ h ∨ h < quietHoursEnd) →
      collectNews h scraped s = scraped.foldl (fun st d => addArticle d st) s) ∧
    (∀ scraped s, collectNews 10 scraped s = scraped.foldl (fun st d => addArticle d st) s) ∧
    (∀ h arts, (quietHoursStart ≤ h ∨ h < quietHoursEnd) →
      createDigestJob h "hourly" arts = none) ∧
    (∀ h arts, ¬ (quietHoursStart ≤ h ∨ h < quietHoursEnd) →
      createDigestJob h "hourly" arts = createDigest arts "hourly") ∧
    (∀ h arts, createDigestJob h "morning" arts = createDigest arts "morning") ∧
    (∀ h arts, createDigestJob h "evening" arts = createDigest arts "evening") ∧
    (∀ h₁ h₂ cutoff db, cleanupJob h₁ cutoff db = cleanupJob h₂ cutoff db) ∧
    (∀ h₁ h₂ o now st, processJob h₁ o now st = processJob h₂ o now st) := by
  refine ⟨by decide, fun _ _ => rfl, fun _ _ => rfl, fun _ _ => rfl, ?_, fun _ _ => rfl,
    ?_, ?_, ?_, ?_, fun _ _ _ _ => rfl, fun _ _ _ _ _ => rfl⟩
  · intro h scraped s _ hq
    simp only [quietHoursStart, quietHoursEnd] at hq
    have : quietSkip h = false := by
      simp only [quietSkip, quietHoursStart, quietHoursEnd, Bool.or_eq_false_iff,
        decide_eq_false_iff_not]
      omega
    simp [collectNews, this]
  · intro h arts hq
    simp only [quietHoursStart, quietHoursEnd] at hq
    have : quietSkip h = true := by
      simp only [quietSkip, quietHoursStart, quietHoursEnd, Bool.or_eq_true,
        decide_eq_true_eq]
      omega
    simp [createDigestJob, this]
  · intro h arts hq
    simp only [quietHoursStart, quietHoursEnd] at hq
    have : quietSkip h = false := by
      simp only [quietSkip, quietHoursStart, quietHoursEnd, Bool.or_eq_false_iff,
        decide_eq_false_iff_not]
      omega
    simp [createDigestJob, this]
  · intro h arts
    simp [createDigestJob]
  · intro h arts
    simp [createDigestJob]

/-- C4, witnessed at the concrete hours the claim names. -/
theorem C4_quiet_hours_suppression_witness :
    (quietSkip 23 = true ↔ ((quietHoursStart ≤ 23 ∧ 23 < 24) ∨ 23 < quietHoursEnd)) ∧
    createDigestJob 2 "hourly" [] = none ∧
    createDigestJob 10 "hourly" [] = createDigest [] "hourly" :=
  ⟨C4_quiet_hours_suppression.1 23 (by decide),
   C4_quiet_hours_suppression.2.2.2.2.2.2.1 2 [] (by decide),
   C4_quiet_hours_suppression.2.2.2.2.2.2.2.1 10 [] (by decide)⟩

/-- C5. The claim says a timezone-aware `published_at` is converted to UTC,
stripped of its zone and the article persisted and acknowledged.  The code
cannot do this: line 155 of `app/scheduler/tasks.py` evaluates
`datetime.timezone.utc` where `datetime` is the class imported by
`from datetime import datetime`, which raises `AttributeError`; the article is
neither persisted nor acknowledged.  Here the aware article arrives over the
queue (offset `+02:00` survives serialization), processing inserts no row and
leaves the message pending, and the normalization step itself errors. -/
theorem C5_tz_normalization_bug :
    (serializeArticle awareArticle).lookup "published_at" =
      some "2024-03-01T12:00:00+02:00" ∧
    (processArticleStream oracleDown sampleNow ([], addArticle awareArticle emptyStream)).1
      = [] ∧
    (processArticleStream oracleDown sampleNow
      ([], addArticle awareArticle emptyStream)).2.pending = [1] ∧
    normalizePublishedAtE (vDatetime ⟨2024, 3, 1, 12, 0, 0, 0, some 120⟩) =
      .error PyExc.attributeError := by
  decide

/-- C7, counterexample.  The claim says `"News from {source}"` is synthesized
only when the content is empty; for the nonempty content `"hi"` (first
sentence of 2 characters, total length 2) the code still synthesizes it,
returning neither the first sentence nor a truncation. -/
theorem C7_counterexample :
    fallbackSummary "hi" "BBC" = "News from BBC" ∧ ("hi" : String) ≠ "" ∧
    fallbackSummary "hi" "BBC" ≠ "hi" ++ "." ∧
    fallbackSummary "hi" "BBC" ≠ "hi" ++ "..." := by
  decide

/-- C7, amended: with content present, the first `". "`-sentence is returned
when longer than 20 characters; otherwise content longer than 120 characters
is truncated at a word boundary with `"..."` appended; in every remaining
case — empty content, or short content with a short first sentence —
`"News from {source}"` is synthesized. -/
theorem C7_fallback_summary_amended (content sourceText : String) :
    (content ≠ "" → ((splitStr ". " content).headD "").data.length > 20 →
      fallbackSummary content sourceText = (splitStr ". " content).headD "" ++ ".") ∧
    (content ≠ "" → ¬ ((splitStr ". " content).headD "").data.length > 20 →
      content.data.length > 120 →
      fallbackSummary content sourceText = truncAtWordBoundary content ++ "...") ∧
    ((content = "" ∨ (¬ ((splitStr ". " content).headD "").data.length > 20 ∧
        content.data.length ≤ 120)) →
      fallbackSummary content sourceText = "News from " ++ sourceText) := by
  refine ⟨?_, ?_, ?_⟩
  · intro hne hlen
    simp only [fallbackSummary]
    rw [if_pos hne, if_pos hlen]
  · intro hne hlen hlong
    simp only [fallbackSummary]
    rw [if_pos hne, if_neg hlen, if_pos hlong]
  · rintro (hc | ⟨hlen, hshort⟩)
    · simp only [fallbackSummary]
      rw [if_neg (by simp [hc])]
    · by_cases hc : content = ""
      · simp only [fallbackSummary]
        rw [if_neg (by simp [hc])]
      · simp only [fallbackSummary]
        rw [if_pos hc, if_neg hlen, if_neg (by omega)]

/-- C7, amended claim applied to the counterexample content. -/
theorem C7_fallback_summary_amended_witness :
    fallbackSummary "hi" "BBC" = "News from " ++ "BBC" :=
  (C7_fallback_summary_amended "hi" "BBC").2.2 (Or.inr ⟨by decide, by decide⟩)

/-- The claim's scoring formula, written from the spec's words for comparison
with the code: occurrences of the keywords in the title weighted 5, plus
occurrences in the content window (`content[:500]`, lowercased) weighted 2 —
the title is not rescanned by the `×2` term. -/
def claimKeywordScore (title content : String) (kws : List String) : Nat :=
  (kws.map fun kw =>
    strCount kw (lowerStr title) * 5 + strCount kw (lowerStr (takeStr 500 content)) * 2).sum

/-- The claim's categorizer: the claimed formula with the same multipliers,
positive-score filter, first-maximum choice and source fallback as the code. -/
def claimKeywordCategorize (title content source : String) : String :=
  let scores := priorityKeywords.filterMap fun ck =>
    let s := claimKeywordScore title content ck.2
    if s > 0 then some (ck.1, applyMultiplier ck.1 s) else none
  match firstMax scores with
  | some cat => cat
  | none => categorizeBySource source

/-- C6, counterexample.  The code's `×2` term counts occurrences in
`(title + " " + content[:500]).lower()`, which rescans the title, so a title
hit weighs 7, not 5.  With the title `"software software"` (two `tech` hits)
and content carrying six `finance` hits, the code scores tech 14 and finance
12 and returns `"tech"`, while the claimed formula scores tech 10 and finance
12 and returns `"finance"`. -/
theorem C6_counterexample :
    keywordCategorize "software software"
      "inflation inflation inflation economy economy economy" "Some Site" = "tech" ∧
    claimKeywordCategorize "software software"
      "inflation inflation inflation economy economy economy" "Some Site" = "finance" ∧
    ("tech" : String) ≠ "finance" := by
  refine ⟨by decide, by decide, by decide⟩

/-- The amended formula: per category, 5 times the total title occurrences
plus 2 times the total occurrences in the lowercased concatenation of the
title and the 500-character content window. -/
def amendedScore (title content : String) (kws : List String) : Nat :=
  5 * (kws.map fun kw => strCount kw (lowerStr title)).sum +
  2 * (kws.map fun kw => strCount kw (lowerStr (title ++ " " ++ takeStr 500 content))).sum

/-- The amended scoring table, multipliers and positive filter as before. -/
def amendedCategoryScores (title content : String) : List (String × Nat) :=
  priorityKeywords.filterMap fun ck =>
    let s := amendedScore title content ck.2
    if s > 0 then some (ck.1, applyMultiplier ck.1 s) else none

theorem rawScore_eq_amendedScore (title content : String) (kws : List String) :
    rawScore title content kws = amendedScore title content kws := by
  induction kws with
  | nil => simp [rawScore, amendedScore]
  | cons kw kws ih =>
    simp only [rawScore, amendedScore, List.map_cons, List.sum_cons] at ih ⊢
    omega

/-- C6, amended: the fallback categorizer scores each category as
`5 × (title occurrences) + 2 × (occurrences in the lowercased title+" "+window
text)`, multiplies the conflict categories by 3 and the local-region category
by 2, and returns the first category attaining the maximal positive score;
when every score is zero it falls back to the source-name heuristic (which
itself defaults to `world`).  Determinism is inherent: the result is a pure
function of title, content and source. -/
theorem C6_keyword_fallback_amended (title content source : String) :
    keywordCategorize title content source =
      match firstMax (amendedCategoryScores title content) with
      | some cat => cat
      | none => categorizeBySource source := by
  have hscores : categoryScores title content = amendedCategoryScores title content := by
    simp only [categoryScores, amendedCategoryScores, rawScore_eq_amendedScore]
  rw [keywordCategorize, hscores]

/-- C6, amended claim applied to the counterexample input. -/
theorem C6_keyword_fallback_amended_witness :
    keywordCategorize "software software"
      "inflation inflation inflation economy economy economy" "Some Site" =
      match firstMax (amendedCategoryScores "software software"
        "inflation inflation inflation economy economy economy") with
      | some cat => cat
      | none => categorizeBySource "Some Site" :=
  C6_keyword_fallback_amended "software software"
    "inflation inflation inflation economy economy economy" "Some Site"

/-- The field shapes on which serialize-then-deserialize is the identity,
keyed the way `_deserialize_article` dispatches: any string under
`stream_id`; null or a constructible datetime under the datetime keys; a float
under `engagement_score`; a boolean under `is_processed`; and under every
other key, null or a string that cannot be a JSON document (its first
character starts no JSON value and is no skippable whitespace, so
`json.loads` raises and the text is kept). -/
def goodStreamId : PyValue → Bool
  | vStr _ => true
  | _ => false

def goodDt : PyValue → Bool
  | vNone => true
  | vDatetime d => d.validB
  | _ => false

def goodScore : PyValue → Bool
  | vFloat _ => true
  | _ => false

def goodProcessed : PyValue → Bool
  | vBool _ => true
  | _ => false

def goodGeneric : PyValue → Bool
  | vNone => true
  | vStr s => jsonRejected s
  | _ => false

def goodField (k : String) (v : PyValue) : Bool :=
  if k = "stream_id" then goodStreamId v
  else if k = "published_at" ∨ k = "scraped_at" then goodDt v
  else if k = "engagement_score" then goodScore v
  else if k = "is_processed" then goodProcessed v
  else goodGeneric v

theorem isoChars_ne_nil (d : PyDatetime) : isoChars d ≠ [] := by
  simp [isoChars, pad4]

theorem isoformat_ne_empty (d : PyDatetime) : isoformat d ≠ "" := by
  intro h
  exact isoChars_ne_nil d (congrArg String.data h)

theorem floatCharsUnsigned_ne_nil (mag k : Nat) : floatCharsUnsigned mag k ≠ [] := by
  unfold floatCharsUnsigned
  split
  · exact natToChars_ne_nil mag
  · simp [natToChars_ne_nil]

theorem floatStr_ne_empty (f : PyFloat) : floatStr f ≠ "" := by
  intro h
  have h2 : floatChars f = [] := congrArg String.data h
  simp only [floatChars] at h2
  rcases List.append_eq_nil.mp h2 with ⟨_, h4⟩
  exact floatCharsUnsigned_ne_nil f.mag f.fracDigits h4

/-- C2, counterexample.  The claim says every field, null included, round
trips.  A null `engagement_score` serializes to the empty marker, which the
deserializer's float branch turns into `0.0`, not back into null.  (Null only
round-trips on keys outside the typed branches.) -/
theorem C2_counterexample :
    deserializeField "engagement_score" (serializeField vNone) = vFloat pyFloatZero ∧
    vFloat pyFloatZero ≠ vNone := by
  decide

/-- C2, amended: `deserialize(serialize(x)) = x` holds field-wise on the
`goodField` shapes — datetime fields with null or any constructible datetime,
float-typed `engagement_score`, boolean-typed `is_processed`, `stream_id`
strings, and generic fields that are null or hold a string no `json.loads`
can parse (first character outside the JSON document start set).  It fails
outside them: null under `engagement_score` becomes `0.0`, null under
`is_processed` becomes `False`, an empty string becomes null, and a string
`json.loads` parses is re-typed. -/
theorem C2_roundtrip_amended (k : String) (v : PyValue) (h : goodField k v = true) :
    deserializeField k (serializeField v) = v := by
  by_cases h1 : k = "stream_id"
  · rw [goodField, if_pos h1] at h
    subst h1
    cases v <;> simp_all [goodStreamId, deserializeField, serializeField]
  · rw [goodField, if_neg h1] at h
    by_cases h2 : k = "published_at" ∨ k = "scraped_at"
    · rw [if_pos h2] at h
      cases v with
      | vNone =>
        rcases h2 with h2 | h2 <;> subst h2 <;> decide
      | vDatetime d =>
        simp only [goodDt] at h
        have hiso := fromiso_isoformat (d := d) h
        rcases h2 with h2 | h2 <;> subst h2 <;>
          simp [deserializeField, serializeField, isoformat_ne_empty d, hiso]
      | vStr s => simp [goodDt] at h
      | vBool b => simp [goodDt] at h
      | vInt n => simp [goodDt] at h
      | vFloat f => simp [goodDt] at h
    · rw [if_neg h2] at h
      by_cases h3 : k = "engagement_score"
      · rw [if_pos h3] at h
        subst h3
        cases v with
        | vFloat f =>
          simp [deserializeField, serializeField, floatStr_ne_empty f, parseFloat_floatStr f]
        | vNone => simp [goodScore] at h
        | vStr s => simp [goodScore] at h
        | vBool b => simp [goodScore] at h
        | vInt n => simp [goodScore] at h
        | vDatetime d => simp [goodScore] at h
      · rw [if_neg h3] at h
        by_cases h4 : k = "is_processed"
        · rw [if_pos h4] at h
          subst h4
          cases v with
          | vBool b => cases b <;> decide
          | vNone => simp [goodProcessed] at h
          | vStr s => simp [goodProcessed] at h
          | vInt n => simp [goodProcessed] at h
          | vFloat f => simp [goodProcessed] at h
          | vDatetime d => simp [goodProcessed] at h
        · rw [if_neg h4] at h
          cases v with
          | vNone =>
            simp [deserializeField, serializeField, h1, h2, h3, h4]
          | vStr s =>
            simp only [goodGeneric] at h
            simp [deserializeField, serializeField, h1, h2, h3, h4,
              ne_empty_of_jsonRejected h, jsonParse_none_of_rejected h]
          | vBool b => simp [goodGeneric] at h
          | vInt n => simp [goodGeneric] at h
          | vFloat f => simp [goodGeneric] at h
          | vDatetime d => simp [goodGeneric] at h

/-- C2, amended claim applied to a concrete title field. -/
theorem C2_roundtrip_amended_witness :
    goodField "title" (vStr "Hello, world") = true ∧
    deserializeField "title" (serializeField (vStr "Hello, world")) = vStr "Hello, world" :=
  ⟨by decide, C2_roundtrip_amended "title" (vStr "Hello, world") (by decide)⟩

/-! ### Digest-assembly lemmas -/

theorem mem_insertDesc {x a : ArticleRow} {l : List ArticleRow} :
    x ∈ insertDesc a l ↔ x = a ∨ x ∈ l := by
  induction l with
  | nil => simp [insertDesc]
  | cons y ys ih =>
    simp only [insertDesc]
    split
    · simp
    · simp only [List.mem_cons, ih]
      tauto

theorem mem_sortDesc_aux {x : ArticleRow} (l acc : List ArticleRow) :
    x ∈ l.foldl (fun acc z => insertDesc z acc) acc ↔ x ∈ acc ∨ x ∈ l := by
  induction l generalizing acc with
  | nil => simp
  | cons a l ih =>
    simp only [List.foldl_cons, ih, mem_insertDesc, List.mem_cons]
    tauto

theorem mem_sortDesc {x : ArticleRow} {l : List ArticleRow} :
    x ∈ sortDesc l ↔ x ∈ l := by
  simp [sortDesc, mem_sortDesc_aux]

/-- The grouping invariant: keys are distinct and every article sits under its
own category key. -/
def GroupsInv (groups : List (String × List ArticleRow)) : Prop :=
  (groups.map Prod.fst).Nodup ∧
    ∀ g ∈ groups, ∀ r ∈ g.2, groupKey r = g.1

theorem addToGroups_fst (groups : List (String × List ArticleRow)) (r : ArticleRow) :
    (addToGroups groups r).map Prod.fst =
      if groups.any (fun g => g.1 == groupKey r) then groups.map Prod.fst
      else groups.map Prod.fst ++ [groupKey r] := by
  simp only [addToGroups]
  split
  · rw [List.map_map]
    apply List.map_congr_left
    intro g _
    simp only [Function.comp_apply]
    split <;> rfl
  · simp

theorem addToGroups_inv {groups : List (String × List ArticleRow)} (hinv : GroupsInv groups)
    (r : ArticleRow) : GroupsInv (addToGroups groups r) := by
  obtain ⟨hnd, hall⟩ := hinv
  constructor
  · rw [addToGroups_fst]
    split
    · exact hnd
    · next hany =>
      rw [List.nodup_append]
      refine ⟨hnd, List.nodup_singleton _, ?_⟩
      intro a ha
      simp only [List.mem_singleton]
      intro hb
      subst hb
      simp only [List.mem_map] at ha
      obtain ⟨g, hg, hga⟩ := ha
      exact hany (by
        simp only [List.any_eq_true]
        exact ⟨g, hg, by simp [hga]⟩)
  · intro g hg r2 hr2
    simp only [addToGroups] at hg
    split at hg
    · simp only [List.mem_map] at hg
      obtain ⟨g0, hg0, hgeq⟩ := hg
      by_cases hk : g0.1 = groupKey r
      · rw [if_pos (by simp [hk])] at hgeq
        subst hgeq
        simp only [List.mem_append, List.mem_singleton] at hr2
        rcases hr2 with hr2 | hr2
        · exact hall g0 hg0 r2 hr2
        · subst hr2; exact hk.symm
      · rw [if_neg (by simp [hk])] at hgeq
        subst hgeq
        exact hall g0 hg0 r2 hr2
    · simp only [List.mem_append, List.mem_singleton] at hg
      rcases hg with hg | hg
      · exact hall g hg r2 hr2
      · subst hg
        simp only [List.mem_singleton] at hr2
        subst hr2
        rfl

theorem groupByCategory_inv (articles : List ArticleRow) :
    GroupsInv (groupByCategory articles) := by
  have main : ∀ (l : List ArticleRow) (acc : List (String × List ArticleRow)),
      GroupsInv acc → GroupsInv (l.foldl addToGroups acc) := by
    intro l
    induction l with
    | nil => intro acc h; exact h
    | cons a l ih => intro acc h; exact ih _ (addToGroups_inv h a)
  exact main articles [] ⟨List.nodup_nil, by simp⟩

theorem lookup_mem {β : Type} {k : String} {v : β} {l : List (String × β)}
    (h : l.lookup k = some v) : (k, v) ∈ l := by
  induction l with
  | nil => simp [List.lookup] at h
  | cons g l ih =>
    rw [List.lookup_cons] at h
    split at h
    · next heq =>
      simp only [Option.some.injEq] at h
      subst h
      have : k = g.1 := by simpa [beq_iff_eq] using heq
      subst this
      exact List.mem_cons_self _ _
    · exact List.mem_cons_of_mem _ (ih h)

/-- Every article a priority-category chunk contributes carries that
category. -/
theorem priority_chunk_key {groups : List (String × List ArticleRow)}
    (hinv : GroupsInv groups) {cat : String} {l : List ArticleRow}
    (hl : groups.lookup cat = some l) :
    ∀ r ∈ (sortDesc l).take n, groupKey r = cat := by
  intro r hr
  have h1 : r ∈ sortDesc l := List.mem_of_mem_take hr
  have h2 : r ∈ l := mem_sortDesc.mp h1
  exact hinv.2 (cat, l) (lookup_mem hl) r h2

theorem countP_take_le {p : ArticleRow → Bool} (l : List ArticleRow) (n : Nat) :
    (l.take n).countP p ≤ n :=
  le_trans (List.countP_le_length p) (by simp)

theorem countP_eq_zero_of_all {p : ArticleRow → Bool} {l : List ArticleRow}
    (h : ∀ r ∈ l, p r = false) : l.countP p = 0 := by
  induction l with
  | nil => simp
  | cons a l ih =>
    simp [List.countP_cons, h a (by simp), ih (fun r hr => h r (by simp [hr]))]

/-- Quota of the priority loop: walking distinct categories adds at most
`maxPer` articles of any one category `c`. -/
theorem priorityFold_countP (groups : List (String × List ArticleRow))
    (hinv : GroupsInv groups) (maxPer : Nat) (c : String) :
    ∀ (cats : List String), cats.Nodup → ∀ (sel : List ArticleRow),
      (cats.foldl (fun sel cat =>
        match groups.lookup cat with
        | some catArticles => sel ++ (sortDesc catArticles).take maxPer
        | none => sel) sel).countP (fun r => groupKey r == c) ≤
      sel.countP (fun r => groupKey r == c) + (if c ∈ cats then maxPer else 0) := by
  intro cats
  induction cats with
  | nil => intro _ sel; simp
  | cons cat cats ih =>
    intro hnd sel
    have hnd2 := (List.nodup_cons.mp hnd).2
    have hcm := (List.nodup_cons.mp hnd).1
    simp only [List.foldl_cons]
    rcases hl : groups.lookup cat with _ | l
    · refine le_trans (ih hnd2 sel) ?_
      have hmono : (if c ∈ cats then maxPer else 0) ≤ (if c ∈ cat :: cats then maxPer else 0) := by
        by_cases hc : c ∈ cats
        · rw [if_pos hc, if_pos (List.mem_cons_of_mem _ hc)]
        · rw [if_neg hc]
          exact Nat.zero_le _
      omega
    · have hchunk : ∀ r ∈ (sortDesc l).take maxPer, groupKey r = cat :=
        priority_chunk_key hinv hl
      refine le_trans (ih hnd2 _) ?_
      rw [List.countP_append]
      by_cases hcc : c = cat
      · subst hcc
        have h1 : ((sortDesc l).take maxPer).countP (fun r => groupKey r == c) ≤ maxPer :=
          countP_take_le _ _
        have hcnotin : c ∉ cats := hcm
        rw [if_neg hcnotin, if_pos (List.mem_cons_self _ _)]
        omega
      · have h0 : ((sortDesc l).take maxPer).countP (fun r => groupKey r == c) = 0 := by
          apply countP_eq_zero_of_all
          intro r hr
          simp [hchunk r hr, Ne.symm hcc]
        rw [h0]
        by_cases hc : c ∈ cats
        · rw [if_pos hc, if_pos (List.mem_cons_of_mem _ hc)]
          omega
        · rw [if_neg hc, if_neg (by simp [List.mem_cons, hcc, hc])]

/-- Quota of the remainder loop: each non-priority category key occurs at most
once across the groups, contributing at most 2 articles of its category. -/
theorem othersFold_countP (c : String) :
    ∀ (groups : List (String × List ArticleRow)), GroupsInv groups →
    ∀ (sel : List ArticleRow),
      (groups.foldl (fun sel g =>
        if g.1 ∈ priorityCats then sel else sel ++ g.2.take 2) sel).countP
          (fun r => groupKey r == c) ≤
      sel.countP (fun r => groupKey r == c) +
        (if c ∉ priorityCats ∧ c ∈ groups.map Prod.fst then 2 else 0) := by
  intro groups
  induction groups with
  | nil => intro _ sel; simp
  | cons g groups ih =>
    intro hinv sel
    have hnd : (g.1 :: groups.map Prod.fst).Nodup := by simpa using hinv.1
    have hinv2 : GroupsInv groups :=
      ⟨(List.nodup_cons.mp hnd).2, fun g2 hg2 => hinv.2 g2 (by simp [hg2])⟩
    have hgkey : ∀ r ∈ g.2, groupKey r = g.1 := fun r hr => hinv.2 g (by simp) r hr
    have hmono : (if c ∉ priorityCats ∧ c ∈ groups.map Prod.fst then 2 else 0) ≤
        (if c ∉ priorityCats ∧ c ∈ (g :: groups).map Prod.fst then 2 else 0) := by
      by_cases hc : c ∉ priorityCats ∧ c ∈ groups.map Prod.fst
      · rw [if_pos hc, if_pos ⟨hc.1, by simp [hc.2]⟩]
      · rw [if_neg hc]
        exact Nat.zero_le _
    simp only [List.foldl_cons]
    split
    · next hp =>
      refine le_trans (ih hinv2 sel) ?_
      omega
    · next hp =>
      refine le_trans (ih hinv2 _) ?_
      rw [List.countP_append]
      by_cases hcc : c = g.1
      · have h1 : (g.2.take 2).countP (fun r => groupKey r == c) ≤ 2 := countP_take_le _ _
        have hp2 : c ∉ priorityCats := by rw [hcc]; exact hp
        have hnotin : c ∉ groups.map Prod.fst := by
          rw [hcc]
          exact (List.nodup_cons.mp hnd).1
        rw [if_neg (by simp [hnotin]), if_pos ⟨hp2, by simp [hcc]⟩]
        omega
      · have h0 : (g.2.take 2).countP (fun r => groupKey r == c) = 0 := by
          apply countP_eq_zero_of_all
          intro r hr
          have := hgkey r (List.mem_of_mem_take hr)
          simp [this, Ne.symm hcc]
        rw [h0]
        omega

/-- The final selection loop yields a subsequence of its input (it only skips
or keeps elements, in order). -/
theorem dedupCap_fold_sublist :
    ∀ (l : List ArticleRow) (seen : List PyValue) (fin : List ArticleRow),
      ∃ s, (l.foldl (fun (p : List PyValue × List ArticleRow) a =>
        if ¬ (p.1.contains a.url) ∧ p.2.length < maxStoriesPerDigest then
          (a.url :: p.1, p.2 ++ [a])
        else p) (seen, fin)).2 = fin ++ s ∧ s.Sublist l := by
  intro l
  induction l with
  | nil => intro seen fin; exact ⟨[], by simp, List.nil_sublist _⟩
  | cons a l ih =>
    intro seen fin
    simp only [List.foldl_cons]
    split
    · obtain ⟨s, hs, hsub⟩ := ih (a.url :: seen) (fin ++ [a])
      exact ⟨a :: s, by simpa using hs, List.cons_sublist_cons.mpr hsub⟩
    · obtain ⟨s, hs, hsub⟩ := ih seen fin
      exact ⟨s, hs, List.sublist_cons_of_sublist a hsub⟩

theorem dedupCap_sublist (l : List ArticleRow) : (dedupCap l).Sublist l := by
  obtain ⟨s, hs, hsub⟩ := dedupCap_fold_sublist l [] []
  unfold dedupCap
  rw [hs, List.nil_append]
  exact hsub

theorem maxPerCategory_ge_two (t : String) : 2 ≤ maxPerCategory t := by
  unfold maxPerCategory
  split <;> omega

theorem dedupCap_fold_inv :
    ∀ (l : List ArticleRow) (seen : List PyValue) (fin : List ArticleRow),
      (fin.map (fun a => a.url)).Nodup → (∀ a ∈ fin, a.url ∈ seen) →
      fin.length ≤ maxStoriesPerDigest →
      (((l.foldl (fun (p : List PyValue × List ArticleRow) a =>
          if ¬ (p.1.contains a.url) ∧ p.2.length < maxStoriesPerDigest then
            (a.url :: p.1, p.2 ++ [a])
          else p) (seen, fin)).2.map (fun a => a.url)).Nodup ∧
        (l.foldl (fun (p : List PyValue × List ArticleRow) a =>
          if ¬ (p.1.contains a.url) ∧ p.2.length < maxStoriesPerDigest then
            (a.url :: p.1, p.2 ++ [a])
          else p) (seen, fin)).2.length ≤ maxStoriesPerDigest) := by
  intro l
  induction l with
  | nil => intro seen fin h1 h2 h3; exact ⟨h1, h3⟩
  | cons a l ih =>
    intro seen fin h1 h2 h3
    simp only [List.foldl_cons]
    split
    · next hcond =>
      apply ih
      · rw [List.map_append]
        rw [List.nodup_append]
        refine ⟨h1, by simp, ?_⟩
        intro u hu
        simp only [List.map_singleton, List.mem_singleton]
        intro he
        subst he
        simp only [List.mem_map] at hu
        obtain ⟨b, hb, hbu⟩ := hu
        have : a.url ∈ seen := hbu ▸ h2 b hb
        exact hcond.1 (List.elem_eq_true_of_mem this)
      · intro b hb
        simp only [List.mem_append, List.mem_singleton] at hb
        rcases hb with hb | hb
        · exact List.mem_cons_of_mem _ (h2 b hb)
        · subst hb; exact List.mem_cons_self _ _
      · simp only [List.length_append, List.length_singleton]
        omega
    · exact ih seen fin h1 h2 h3

theorem dedupCap_urls_nodup (l : List ArticleRow) :
    ((dedupCap l).map (fun a => a.url)).Nodup := by
  unfold dedupCap
  exact (dedupCap_fold_inv l [] [] (by simp) (by simp) (by simp [maxStoriesPerDigest])).1

theorem dedupCap_length_le (l : List ArticleRow) :
    (dedupCap l).length ≤ maxStoriesPerDigest := by
  unfold dedupCap
  exact (dedupCap_fold_inv l [] [] (by simp) (by simp) (by simp [maxStoriesPerDigest])).2

theorem select_urls_nodup (articles : List ArticleRow) (t : String) :
    ((selectArticlesForDigest articles t).map (fun a => a.url)).Nodup :=
  dedupCap_urls_nodup _

theorem select_length_le (articles : List ArticleRow) (t : String) :
    (selectArticlesForDigest articles t).length ≤ maxStoriesPerDigest :=
  dedupCap_length_le _

/-- C9. For every digest created the position values are exactly
`{0, …, stories_count − 1}` in order, `stories_count` equals the number of
`DigestArticle` rows, the selected articles have pairwise distinct URLs (so an
article occupies at most one position) and the selection respects the digest
size cap; with zero candidate articles no digest row is created at all. -/
theorem C9_digest_positions (articles : List ArticleRow) (digestType : String) :
    createDigest [] digestType = none ∧
    ∀ d das, createDigest articles digestType = some (d, das) →
      das.map (fun x => x.position) = List.range d.stories_count ∧
      d.stories_count = das.length ∧
      (das.map (fun x => x.article.url)).Nodup ∧
      das.length ≤ maxStoriesPerDigest := by
  constructor
  · rfl
  · intro d das h
    simp only [createDigest] at h
    split at h
    · exact absurd h (by simp)
    · split at h
      · exact absurd h (by simp)
      · simp only [Option.some.injEq, Prod.mk.injEq] at h
        obtain ⟨hd, hdas⟩ := h
        subst hd
        subst hdas
        refine ⟨?_, ?_, ?_, ?_⟩
        · rw [List.map_map]
          have : ((fun x : DigestArticleRow => x.position) ∘ fun ia =>
              (⟨ia.2, ia.1, ia.2.category⟩ : DigestArticleRow)) = Prod.fst := rfl
          rw [this, List.enum_map_fst]
        · simp
        · rw [List.map_map]
          have : ((fun x : DigestArticleRow => x.article.url) ∘ fun ia =>
              (⟨ia.2, ia.1, ia.2.category⟩ : DigestArticleRow)) =
              (fun a : ArticleRow => a.url) ∘ Prod.snd := rfl
          rw [this, ← List.map_map, List.enum_map_snd]
          exact select_urls_nodup articles digestType
        · simp only [List.length_map, List.enum_length]
          exact select_length_le articles digestType

/-- A one-candidate store for the digest witnesses. -/
def c9row : ArticleRow := sampleRow "https://u1" (some "ukraine") (vFloat pyFloatZero)

/-- C9, applied to a one-article store: one digest with one position-0 row. -/
theorem C9_digest_positions_witness :
    [(⟨c9row, 0, some "ukraine"⟩ : DigestArticleRow)].map (fun x => x.position) =
      List.range (1 : Nat) ∧
    (1 : Nat) = [(⟨c9row, 0, some "ukraine"⟩ : DigestArticleRow)].length ∧
    ([(⟨c9row, 0, some "ukraine"⟩ : DigestArticleRow)].map (fun x => x.article.url)).Nodup ∧
    [(⟨c9row, 0, some "ukraine"⟩ : DigestArticleRow)].length ≤ maxStoriesPerDigest :=
  (C9_digest_positions [c9row] "hourly").2
    ⟨"hourly", 1, ["ukraine"]⟩ [⟨c9row, 0, some "ukraine"⟩] (by decide)

/-- The claim's priority order, written from the spec's words: conflict,
region, tech, finance, politics, sports, world — with the region category
right after the conflict pair. -/
def claimPriorityCats : List String :=
  ["ukraine", "gaza", "swiss", "ai", "tech", "finance", "politics", "premier_league", "world"]

/-- The claim's selector: identical to the code's except for the claimed
iteration order. -/
def claimSelectArticlesForDigest (articles : List ArticleRow) (digestType : String) :
    List ArticleRow :=
  let groups := groupByCategory articles
  let maxPer := maxPerCategory digestType
  let fromPriority := claimPriorityCats.foldl (fun sel cat =>
    match groups.lookup cat with
    | some catArticles => sel ++ (sortDesc catArticles).take maxPer
    | none => sel) []
  let withOthers := groups.foldl (fun sel g =>
    if g.1 ∈ claimPriorityCats then sel else sel ++ g.2.take 2) fromPriority
  dedupCap withOthers

/-- Two rows used to witness the priority order. -/
def swissRow : ArticleRow := sampleRow "https://s" (some "swiss") (vFloat pyFloatZero)

def aiRow : ArticleRow := sampleRow "https://a" (some "ai") (vFloat pyFloatZero)

/-- C8, counterexample.  The code iterates
`ukraine, gaza, ai, tech, finance, politics, premier_league, swiss, world` —
the local-region category comes second to last, not right after the conflict
pair as the claim's order states.  On a store with one swiss and one ai
article, the code selects the ai article first while the claimed order would
select the swiss one first. -/
theorem C8_counterexample :
    selectArticlesForDigest [swissRow, aiRow] "hourly" = [aiRow, swissRow] ∧
    claimSelectArticlesForDigest [swissRow, aiRow] "hourly" = [swissRow, aiRow] ∧
    aiRow ≠ swissRow := by
  refine ⟨by decide, by decide, by decide⟩

/-- C8, amended: the selector iterates the priority categories in the code's
declared order `ukraine, gaza, ai, tech, finance, politics, premier_league,
swiss, world`, taking up to `max_per_category` (5 for morning/evening, 3
otherwise) per category in `(engagement_score desc, scraped_at desc)` order,
then appends the remaining categories capped at 2 articles each; consequently
no category contributes more than `max_per_category` articles to any
digest. -/
theorem C8_digest_selection_amended :
    (∀ (articles : List ArticleRow) (digestType c : String),
      (selectArticlesForDigest articles digestType).countP (fun r => groupKey r == c) ≤
        maxPerCategory digestType) ∧
    maxPerCategory "morning" = 5 ∧ maxPerCategory "evening" = 5 ∧
    maxPerCategory "hourly" = 3 ∧
    selectArticlesForDigest [swissRow, aiRow] "hourly" = [aiRow, swissRow] := by
  refine ⟨?_, by decide, by decide, by decide, by decide⟩
  intro articles digestType c
  have hinv := groupByCategory_inv articles
  have hndp : priorityCats.Nodup := by decide
  have hsub := (dedupCap_sublist
    ((groupByCategory articles).foldl (fun sel g =>
      if g.1 ∈ priorityCats then sel else sel ++ g.2.take 2)
      (priorityCats.foldl (fun sel cat =>
        match (groupByCategory articles).lookup cat with
        | some catArticles => sel ++ (sortDesc catArticles).take (maxPerCategory digestType)
        | none => sel) []))).countP_le (fun r => groupKey r == c)
  have hothers := othersFold_countP c (groupByCategory articles) hinv
    (priorityCats.foldl (fun sel cat =>
      match (groupByCategory articles).lookup cat with
      | some catArticles => sel ++ (sortDesc catArticles).take (maxPerCategory digestType)
      | none => sel) [])
  have hprio := priorityFold_countP (groupByCategory articles) hinv
    (maxPerCategory digestType) c priorityCats hndp []
  have hcap : (selectArticlesForDigest articles digestType).countP
      (fun r => groupKey r == c) ≤
      ((groupByCategory articles).foldl (fun sel g =>
        if g.1 ∈ priorityCats then sel else sel ++ g.2.take 2)
        (priorityCats.foldl (fun sel cat =>
          match (groupByCategory articles).lookup cat with
          | some catArticles => sel ++ (sortDesc catArticles).take (maxPerCategory digestType)
          | none => sel) [])).countP (fun r => groupKey r == c) := hsub
  refine le_trans hcap (le_trans hothers ?_)
  have h2 := maxPerCategory_ge_two digestType
  simp only [List.countP_nil, Nat.zero_add] at hprio
  by_cases hc : c ∈ priorityCats
  · rw [if_neg (by simp [hc])]
    rw [if_pos hc] at hprio
    omega
  · rw [if_neg hc] at hprio
    split <;> omega

/-! ### Queue-lifecycle lemmas -/

/-- The operations a client can run against the stream, as `NewsStream`
exposes them: append, consumer-group read, acknowledge. -/
inductive QOp where
  | add (fields : List (String × String)) : QOp
  | read (n : Nat) : QOp
  | ack (i : Nat) : QOp

def applyOp (s : StreamState) : QOp → StreamState
  | .add fields => xadd fields s
  | .read n => afterRead n s
  | .ack i => xack i s

def applyOps (s : StreamState) (ops : List QOp) : StreamState := ops.foldl applyOp s

/-- Well-formedness every reachable stream state enjoys: entry ids strictly
increase, ids stay below the next id, the last-delivered id stays below the
next id, and pending ids are distinct and already delivered. -/
def WFStream (s : StreamState) : Prop :=
  (s.entries.map (·.id)).Pairwise (· < ·) ∧
  (∀ e ∈ s.entries, e.id < s.nextId) ∧
  s.lastDelivered < s.nextId ∧
  s.pending.Nodup ∧
  (∀ i ∈ s.pending, i ≤ s.lastDelivered)

instance : DecidablePred WFStream := fun s => by
  unfold WFStream
  infer_instance

theorem readEntries_gt {n : Nat} {s : StreamState} {e : StreamEntry}
    (he : e ∈ readEntries n s) : s.lastDelivered < e.id := by
  have := List.mem_of_mem_take he
  simpa using (List.mem_filter.mp this).2

theorem readEntries_mem {n : Nat} {s : StreamState} {e : StreamEntry}
    (he : e ∈ readEntries n s) : e ∈ s.entries :=
  List.mem_of_mem_filter (List.mem_of_mem_take he)

theorem readEntries_pairwise {n : Nat} {s : StreamState} (hwf : WFStream s) :
    ((readEntries n s).map (·.id)).Pairwise (· < ·) := by
  have h1 : (readEntries n s).Sublist s.entries :=
    (List.take_sublist _ _).trans (List.filter_sublist _)
  exact List.Pairwise.sublist (h1.map (·.id)) hwf.1

theorem foldl_max_ge_init (l : List StreamEntry) (init : Nat) :
    init ≤ l.foldl (fun acc e => max acc e.id) init := by
  induction l generalizing init with
  | nil => simp
  | cons e l ih => exact le_trans (le_max_left _ _) (ih (max init e.id))

theorem foldl_max_ge_mem {l : List StreamEntry} {e : StreamEntry} (he : e ∈ l) (init : Nat) :
    e.id ≤ l.foldl (fun acc e => max acc e.id) init := by
  induction l generalizing init with
  | nil => simp at he
  | cons x l ih =>
    rcases List.mem_cons.mp he with hx | hx
    · subst hx
      exact le_trans (le_max_right init e.id) (foldl_max_ge_init l _)
    · exact ih hx _

theorem foldl_max_lt {l : List StreamEntry} {bound init : Nat} (hb : init < bound)
    (hl : ∀ e ∈ l, e.id < bound) :
    l.foldl (fun acc e => max acc e.id) init < bound := by
  induction l generalizing init with
  | nil => simpa
  | cons x l ih =>
    simp only [List.foldl_cons]
    exact ih (Nat.max_lt.mpr ⟨hb, hl x (by simp)⟩) (fun e he => hl e (by simp [he]))

/-- Reads advance the last-delivered id past every delivered entry. -/
theorem afterRead_lastDelivered_ge {n : Nat} {s : StreamState} {e : StreamEntry}
    (he : e ∈ readEntries n s) : e.id ≤ (afterRead n s).lastDelivered :=
  foldl_max_ge_mem he _

theorem afterRead_lastDelivered_mono (n : Nat) (s : StreamState) :
    s.lastDelivered ≤ (afterRead n s).lastDelivered :=
  foldl_max_ge_init _ _

/-- Well-formedness is preserved by every queue operation. -/
theorem applyOp_wf {s : StreamState} (hwf : WFStream s) (op : QOp) :
    WFStream (applyOp s op) := by
  obtain ⟨hpw, hbound, hlast, hnd, hple⟩ := hwf
  cases op with
  | add fields =>
    refine ⟨?_, ?_, by simpa [applyOp, xadd] using Nat.lt_succ_of_lt hlast, hnd, hple⟩
    · simp only [applyOp, xadd, List.map_append, List.map_singleton]
      rw [List.pairwise_append]
      refine ⟨hpw, List.pairwise_singleton _ _, ?_⟩
      intro a ha b hb
      simp only [List.mem_singleton] at hb
      subst hb
      simp only [List.mem_map] at ha
      obtain ⟨e2, he2, hae⟩ := ha
      subst hae
      exact hbound e2 he2
    · intro e he
      simp only [applyOp, xadd, List.mem_append, List.mem_singleton] at he
      rcases he with he | he
      · exact Nat.lt_succ_of_lt (hbound e he)
      · subst he; exact Nat.lt_succ_self _
  | read n =>
    have hbatch : ∀ e ∈ readEntries n s, e.id < s.nextId :=
      fun e he => hbound e (readEntries_mem he)
    refine ⟨hpw, hbound, foldl_max_lt hlast hbatch, ?_, ?_⟩
    · simp only [applyOp, afterRead]
      rw [List.nodup_append]
      refine ⟨hnd, ?_, ?_⟩
      · have := readEntries_pairwise (n := n)
          ⟨hpw, hbound, hlast, hnd, hple⟩
        exact List.Pairwise.imp Nat.ne_of_lt this
      · intro i hi
        simp only [List.mem_map]
        rintro ⟨e, he, hei⟩
        have h1 := hple i hi
        have h2 := readEntries_gt he
        omega
    · intro i hi
      simp only [applyOp, afterRead, List.mem_append, List.mem_map] at hi
      rcases hi with hi | ⟨e, he, hei⟩
      · exact le_trans (hple i hi) (afterRead_lastDelivered_mono n s)
      · exact hei ▸ afterRead_lastDelivered_ge he
  | ack i =>
    exact ⟨hpw, hbound, hlast, hnd.erase i,
      fun j hj => hple j (List.mem_of_mem_erase hj)⟩

theorem applyOps_wf {s : StreamState} (hwf : WFStream s) (ops : List QOp) :
    WFStream (applyOps s ops) := by
  induction ops generalizing s with
  | nil => exact hwf
  | cons op ops ih => exact ih (applyOp_wf hwf op)

theorem applyOp_lastDelivered_mono (s : StreamState) (op : QOp) :
    s.lastDelivered ≤ (applyOp s op).lastDelivered := by
  cases op with
  | add fields => exact le_refl _
  | read n => exact afterRead_lastDelivered_mono n s
  | ack i => exact le_refl _

theorem applyOps_lastDelivered_mono (s : StreamState) (ops : List QOp) :
    s.lastDelivered ≤ (applyOps s ops).lastDelivered := by
  induction ops generalizing s with
  | nil => exact le_refl _
  | cons op ops ih =>
    exact le_trans (applyOp_lastDelivered_mono s op) (ih (applyOp s op))

/-- The stream holding one unacknowledged sample message. -/
def c3stream : StreamState := addArticle sampleArticle emptyStream

/-- C3, counterexample.  The claim says a message that was read but not
acknowledged is returned again by a subsequent read.  The consumer reads only
with `">"` (never-delivered entries) and never reclaims pending ones, so after
a read that is not acknowledged, the next read returns nothing — the message
sits in the pending list but is not redelivered. -/
theorem C3_counterexample :
    (readArticles 10 c3stream).1 ≠ [] ∧
    (readArticles 10 (readArticles 10 c3stream).2).1 = [] ∧
    (readArticles 10 c3stream).2.pending = [1] := by
  decide

/-- C3, amended: a message read and not acknowledged stays in the pending
list (it remains claimable), but no subsequent sequence of appends, reads and
acknowledgements makes any read return it again — the consumer fetches only
entries beyond the group's last-delivered id and never reclaims pending ones;
and once acknowledged it leaves the pending list, so it neither reappears in
a read nor stays pending. -/
theorem C3_redelivery_amended (s : StreamState) (hwf : WFStream s) (n : Nat)
    (e : StreamEntry) (he : e ∈ readEntries n s) :
    e.id ∈ (afterRead n s).pending ∧
    (∀ ops m e2, e2 ∈ readEntries m (applyOps (afterRead n s) ops) → e2.id ≠ e.id) ∧
    e.id ∉ (xack e.id (afterRead n s)).pending := by
  refine ⟨?_, ?_, ?_⟩
  · simp only [afterRead, List.mem_append, List.mem_map]
    exact Or.inr ⟨e, he, rfl⟩
  · intro ops m e2 he2
    have h1 : e.id ≤ (afterRead n s).lastDelivered := afterRead_lastDelivered_ge he
    have h2 : (afterRead n s).lastDelivered ≤
        (applyOps (afterRead n s) ops).lastDelivered :=
      applyOps_lastDelivered_mono _ _
    have h3 := readEntries_gt he2
    omega
  · have hwf2 : WFStream (afterRead n s) := applyOp_wf hwf (QOp.read n)
    simp only [xack]
    exact hwf2.2.2.2.1.not_mem_erase

/-- C3, amended claim applied to the one-message stream: the message is read,
left pending, never redelivered (witnessed by an empty follow-up read), and
acknowledging removes it. -/
theorem C3_redelivery_amended_witness :
    (1 : Nat) ∈ (afterRead 10 c3stream).pending ∧
    (∀ ops m e2, e2 ∈ readEntries m (applyOps (afterRead 10 c3stream) ops) →
      e2.id ≠ (1 : Nat)) ∧
    (1 : Nat) ∉ (xack 1 (afterRead 10 c3stream)).pending := by
  have h := C3_redelivery_amended c3stream (by decide) 10
    ⟨1, serializeArticle sampleArticle⟩ (by decide)
  exact h

/-! ### Processing-stage lemmas -/

/-- Any row a single processing step leaves in the store was already there or
was created fully processed: `is_processed` true, a category and a summary. -/
theorem processOne_mem {o : Nat → LlmOracle} {now : PyDatetime}
    {st : ArticleDb × StreamState} {msg : List (String × PyValue) × Nat} {r : ArticleRow}
    (hr : r ∈ (processOne o now st msg).1) :
    r ∈ st.1 ∨ (r.is_processed = true ∧ r.category.isSome ∧ r.summary.isSome) := by
  obtain ⟨db, s⟩ := st
  obtain ⟨ad, sid⟩ := msg
  simp only [processOne] at hr
  split at hr
  · exact Or.inl hr
  · split at hr
    · exact Or.inl hr
    · split at hr
      · exact Or.inl hr
      · split at hr
        · exact Or.inl hr
        · split at hr
          · simp only [List.mem_append, List.mem_singleton] at hr
            rcases hr with hr | hr
            · exact Or.inl hr
            · subst hr
              exact Or.inr ⟨rfl, rfl, rfl⟩
          all_goals exact Or.inl hr

theorem processFold_mem {o : Nat → LlmOracle} {now : PyDatetime} :
    ∀ (batch : List (List (String × PyValue) × Nat)) (st : ArticleDb × StreamState)
      (r : ArticleRow), r ∈ (batch.foldl (processOne o now) st).1 →
      r ∈ st.1 ∨ (r.is_processed = true ∧ r.category.isSome ∧ r.summary.isSome) := by
  intro batch
  induction batch with
  | nil => intro st r hr; exact Or.inl hr
  | cons msg batch ih =>
    intro st r hr
    rcases ih (processOne o now st msg) r hr with h | h
    · exact processOne_mem h
    · exact Or.inr h

/-- C10. Every article row the stream-processing stage creates has
`is_processed = True` and a non-null category and summary at creation time:
any row in the store after a processing run was either there before or
satisfies all three. -/
theorem C10_processed_rows_invariant (o : Nat → LlmOracle) (now : PyDatetime)
    (db : ArticleDb) (s : StreamState) (r : ArticleRow)
    (hr : r ∈ (processArticleStream o now (db, s)).1) :
    r ∈ db ∨ (r.is_processed = true ∧ r.category.isSome ∧ r.summary.isSome) := by
  unfold processArticleStream at hr
  exact processFold_mem _ _ _ hr

/-- The row the processing stage creates for the sample article. -/
def c10row : ArticleRow :=
  { url := vStr "https://example.com/a"
    title := vStr "Ukraine war latest"
    content := vStr "A long first sentence about the front. More."
    summary := some "A long first sentence about the front."
    source := vStr "BBC World"
    source_type := vStr "mainstream"
    category := some "ukraine"
    published_at := some ⟨2024, 3, 1, 10, 0, 0, 0, none⟩
    scraped_at := sampleNow
    engagement_score := vFloat pyFloatZero
    is_processed := true }

/-- C10, applied to the concrete sample run. -/
theorem C10_processed_rows_invariant_witness :
    c10row ∈ ([] : ArticleDb) ∨
      (c10row.is_processed = true ∧ c10row.category.isSome ∧ c10row.summary.isSome) :=
  C10_processed_rows_invariant oracleDown sampleNow [] (addArticle sampleArticle emptyStream)
    c10row (by decide)

/-! ### Ingestion round-trip lemmas for whole articles -/

end NewsFlow
